import Mathlib

/-!
Verification of the GOWebServer HTTP/1.x server core.

The Go source is shallowly embedded: Go byte-strings become `List Char`
(all data relevant to the properties below is ASCII, one `Char` per byte),
Go maps with string keys become association lists with Go-map semantics
(insertion replaces, a missing key reads as the empty string), and the
per-connection byte stream is the list of chunks successive `conn.Read`
calls return.  External collaborators (the OS filesystem, the `gzip`
encoder, `mime.TypeByExtension` and the `time` parse/format routines)
are parameters of the model, gathered in the `Env` structure.
-/

namespace GWS

/-- Go byte-strings are modelled as lists of characters (one per byte). -/
abbrev Str := List Char

/-- Shorthand: the character list of a Lean string literal. -/
def str (s : String) : Str := s.data

/-- ASCII whitespace as recognised by Go's `unicode.IsSpace`
(restricted to the ASCII range, which is all the server ever sees). -/
def isSpace (c : Char) : Bool :=
  c = ' ' ∨ c = '\t' ∨ c = '\n' ∨ c = '\x0b' ∨ c = '\x0c' ∨ c = '\r'

/-- Go `strings.TrimSpace`: drop leading and trailing whitespace. -/
def trimSpace (s : Str) : Str :=
  ((s.dropWhile isSpace).reverse.dropWhile isSpace).reverse

/-- Go `strings.Split(s, sep)` for a one-character separator:
splits on every occurrence, always returns at least one piece. -/
def splitOnChar (sep : Char) : Str → List Str
  | [] => [[]]
  | c :: rest =>
    match splitOnChar sep rest with
    | [] => [[]]
    | h :: t => if c = sep then [] :: h :: t else (c :: h) :: t

/-- Go `strings.SplitN(s, sep, 2)` for a one-character separator, in the
case the separator occurs (`none` when it does not): the text before the
first occurrence and everything after it. -/
def splitFirst (sep : Char) : Str → Option (Str × Str)
  | [] => none
  | c :: rest =>
    if c = sep then some ([], rest)
    else
      match splitFirst sep rest with
      | none => none
      | some (a, b) => some (c :: a, b)

/-- Helper for `fields`: accumulates the current token (reversed). -/
def fieldsAux : Str → Str → List Str
  | [], acc => if acc = [] then [] else [acc.reverse]
  | c :: rest, acc =>
    if isSpace c then
      if acc = [] then fieldsAux rest [] else acc.reverse :: fieldsAux rest []
    else fieldsAux rest (c :: acc)

/-- Go `strings.Fields`: split around runs of whitespace. -/
def fields (s : Str) : List Str := fieldsAux s []

/-- Go `bytes.Contains(hay, needle)` / `strings.Contains`. -/
def containsSub (hay needle : Str) : Bool :=
  needle.isPrefixOf hay ||
    (match hay with
     | [] => false
     | _ :: t => containsSub t needle)

/-- Go `bytes.Index(hay, needle)`: index of the first occurrence. -/
def firstIdxSub (hay needle : Str) : Option Nat :=
  if needle.isPrefixOf hay then some 0
  else
    match hay with
    | [] => none
    | _ :: t => (firstIdxSub t needle).map (· + 1)

/-- Go `strings.ToLower` (ASCII range). -/
def toLowerStr (s : Str) : Str := s.map Char.toLower

/-- Decimal digits of a natural number, most significant first; the first
argument is recursion fuel (structural, so that the kernel can evaluate). -/
def natDigitsAux : Nat → Nat → Str → Str
  | 0, _, acc => acc
  | f + 1, n, acc =>
    if n < 10 then Char.ofNat (48 + n) :: acc
    else natDigitsAux f (n / 10) (Char.ofNat (48 + n % 10) :: acc)

/-- Go `fmt.Sprintf("%d", n)` for a non-negative value. -/
def natToStr (n : Nat) : Str := natDigitsAux (n + 1) n []

/-- Go `fmt.Sprintf("%d", i)` for an `int64` value. -/
def intToStr (i : Int) : Str :=
  if i < 0 then '-' :: natToStr (-i).toNat else natToStr i.toNat

/-- The value of a decimal digit character, `none` for a non-digit. -/
def digitVal (c : Char) : Option Nat :=
  if '0' ≤ c ∧ c ≤ '9' then some (c.toNat - 48) else none

/-- Accumulates the value of a digit string left to right. -/
def digitsValAux : Str → Nat → Option Nat
  | [], acc => some acc
  | c :: rest, acc =>
    match digitVal c with
    | none => none
    | some d => digitsValAux rest (acc * 10 + d)

/-- The numeric value of a string of decimal digits; `none` if the string
is empty or has a non-digit. -/
def digitsVal? (s : Str) : Option Nat :=
  if s = [] then none else digitsValAux s 0

/-- `true` iff the string is a non-empty run of decimal digits. -/
def isDigits (s : Str) : Bool :=
  s ≠ [] ∧ ∀ c ∈ s, '0' ≤ c ∧ c ≤ '9'

/-! ## Header maps

Go's `map[string]string` with the operations the server uses: insertion
(which replaces an existing binding), comma-ok lookup, and plain lookup
(a missing key reads as the zero value `""`).  Iteration order of a Go map
is not observable in any property treated here. -/

/-- A Go `map[string]string`, as an association list without duplicate
keys (all updates go through `upsert`). -/
abbrev Headers := List (Str × Str)

/-- `m[k] = v`: replaces the binding of `k` if present, appends otherwise. -/
def upsert (m : Headers) (k v : Str) : Headers :=
  match m with
  | [] => [(k, v)]
  | (k', v') :: rest => if k' = k then (k, v) :: rest else (k', v') :: upsert rest k v

/-- `v, ok := m[k]`: comma-ok map lookup. -/
def lookup? (m : Headers) (k : Str) : Option Str :=
  match m with
  | [] => none
  | (k', v') :: rest => if k' = k then some v' else lookup? rest k

/-- `m[k]`: map lookup, yielding the zero value `""` for a missing key. -/
def lookupD (m : Headers) (k : Str) : Str := (lookup? m k).getD []

/-! ## Request parser (`internal/protocol/request.go`)

The connection is modelled by the list of chunks that successive
`conn.Read` calls deliver (the Go code copies `buf[:n]` out of its 4 KiB
read buffer on every iteration; a chunk is such a copy, hence at most
4096 bytes in any run of the real system).  An exhausted chunk list
models a read error (peer close or deadline expiry). -/

def MaxRequestSize : Nat := 1048576

def MaxHeaderSize : Nat := 16384

/-- `"\r\n\r\n"`. -/
def crlf2 : Str := ['\r', '\n', '\r', '\n']

/-- `"\n\n"`. -/
def lf2 : Str := ['\n', '\n']

/-- The accumulation loop of `ParseRequest` (request.go lines 27-56):
append each read chunk, fail if the total exceeds `MaxRequestSize`, fail
if it exceeds `MaxHeaderSize` with no `"\r\n\r\n"` yet, and stop once a
`"\r\n\r\n"` or `"\n\n"` terminator is present.  Returns the accumulated
bytes and the chunks not yet read. -/
def readHeadersLoop : List Str → Str → Option (Str × List Str)
  | [], _ => none
  | c :: rest, acc =>
    let acc' := acc ++ c
    if acc'.length > MaxRequestSize then none
    else if acc'.length > MaxHeaderSize ∧ ¬ containsSub acc' crlf2 then none
    else if containsSub acc' crlf2 then some (acc', rest)
    else if containsSub acc' lf2 then some (acc', rest)
    else readHeadersLoop rest acc'

/-- Splitting the accumulated data at the first header terminator
(request.go lines 59-68): prefix = header section, suffix = initial body
fragment. -/
def splitHeaderBody (allData : Str) : Option (Str × Str) :=
  match firstIdxSub allData crlf2 with
  | some idx => some (allData.take idx, allData.drop (idx + 4))
  | none =>
    match firstIdxSub allData lf2 with
    | some idx => some (allData.take idx, allData.drop (idx + 2))
    | none => none

/-- Header-line parsing (request.go lines 92-101): trim each line, skip
empty ones, split at the first `':'` (lines without a colon are silently
skipped), trim name and value, store in the map. -/
def parseHeaderLines (lines : List Str) : Headers :=
  lines.foldl (fun hs line =>
    let line' := trimSpace line
    if line' = [] then hs
    else
      match splitFirst ':' line' with
      | none => hs
      | some (n, v) => upsert hs (trimSpace n) (trimSpace v)) []

/-- `math.MaxInt64`, the largest value a Go `int` holds (64-bit platform). -/
def maxInt64 : Nat := 9223372036854775807

/-- Go `fmt.Sscanf(s, "%d", &n)` into an `int` with the error ignored and
`n` zero-initialised: skip leading whitespace, then an optional sign and a
maximal run of digits; if no digit is found, or the number overflows the
64-bit range (`strconv.ParseInt` range error makes `Sscanf` fail before
assigning), the variable keeps value 0. -/
def sscanfInt (s : Str) : Int :=
  let s' := s.dropWhile isSpace
  match s' with
  | '-' :: rest =>
    if (digitsVal? (rest.takeWhile fun c => '0' ≤ c ∧ c ≤ '9')).getD 0 ≤ maxInt64 + 1
    then -(((digitsVal? (rest.takeWhile fun c => '0' ≤ c ∧ c ≤ '9')).getD 0 : Nat) : Int)
    else 0
  | '+' :: rest =>
    if (digitsVal? (rest.takeWhile fun c => '0' ≤ c ∧ c ≤ '9')).getD 0 ≤ maxInt64
    then (((digitsVal? (rest.takeWhile fun c => '0' ≤ c ∧ c ≤ '9')).getD 0 : Nat) : Int)
    else 0
  | _ =>
    if (digitsVal? (s'.takeWhile fun c => '0' ≤ c ∧ c ≤ '9')).getD 0 ≤ maxInt64
    then (((digitsVal? (s'.takeWhile fun c => '0' ≤ c ∧ c ≤ '9')).getD 0 : Nat) : Int)
    else 0

/-- The body-completion loop of `ParseRequest` (request.go lines 113-119):
keep reading chunks while fewer than `expected` body bytes are available. -/
def readBodyLoop (expected : Nat) : List Str → Str → Option Str
  | [], cur => if cur.length ≥ expected then some cur else none
  | c :: rest, cur =>
    if cur.length ≥ expected then some cur else readBodyLoop expected rest (cur ++ c)

/-- Body handling of `ParseRequest` (request.go lines 103-127): with a
`Content-Length` header of positive scanned value the parser reads until
that many body bytes are available and truncates to exactly that length;
with a non-positive value the body stays at its zero value `""`; with no
`Content-Length` header the initial body fragment is kept as is. -/
def computeBody (rest : List Str) (bodyInit : Str) (headers : Headers) : Option Str :=
  match lookup? headers (str "Content-Length") with
  | some clv =>
    let expected := sscanfInt clv
    if expected > 0 then
      match readBodyLoop expected.toNat rest bodyInit with
      | none => none
      | some full => some (full.take expected.toNat)
    else some []
  | none => some bodyInit

/-- The parsed request (`protocol.Request`): method, raw target path,
version string, header map with the received casing preserved, body. -/
structure Request where
  method : Str
  path : Str
  version : Str
  headers : Headers
  body : Str
  deriving DecidableEq, Repr

/-- `protocol.ParseRequest` over a chunked connection stream: header
accumulation, terminator split, request-line parsing (three
whitespace-separated tokens required), header lines, then the body per
`Content-Length`. -/
def parseRequestCore (chunks : List Str) : Option Request :=
  match readHeadersLoop chunks [] with
  | none => none
  | some (allData, rest) =>
    match splitHeaderBody allData with
    | none => none
    | some (headerBytes, bodyInit) =>
      match splitOnChar '\n' headerBytes with
      | [] => none
      | line0 :: restLines =>
        match fields (trimSpace line0) with
        | m :: p :: v :: _ =>
          match computeBody rest bodyInit (parseHeaderLines restLines) with
          | none => none
          | some body => some ⟨m, p, v, parseHeaderLines restLines, body⟩
        | _ => none

/-! ## Keep-alive loop (`internal/server/server.go`) and router
(`internal/router/router.go`) -/

/-- The keep-alive decision of `handleConnection` (server.go lines 74-85):
`false` for an HTTP/1.0 server; otherwise `true` unless the request map
holds a `Connection` key (exact, case-sensitive map lookup) whose value
lowercases to `close`. -/
def computeKeepAlive (cfgVersion : Str) (headers : Headers) : Bool :=
  if cfgVersion = str "HTTP/1.0" then false
  else
    match lookup? headers (str "Connection") with
    | some connHeader => toLowerStr connHeader ≠ str "close"
    | none => true

/-- `Router.NeedsStreaming` (router.go lines 50-52): `GET` or `HEAD` with
a path whose prefix is `/static/`. -/
def needsStreaming (req : Request) : Bool :=
  (req.method = str "GET" ∨ req.method = str "HEAD") ∧
    List.isPrefixOf (str "/static/") req.path

/-- `maxRequests` of `handleConnection`. -/
def maxRequestsPerConn : Nat := 100

/-- The request/response loop of `handleConnection` (server.go lines
64-129), abstracted over the outcomes the loop branches on: `inputs` is
the sequence of `ParseRequest` results (`none` = parse error), `streamOk`
whether the streaming handler returns without error on a given request,
and `writeOk` whether `WriteResponse` succeeds.  The result is the final
request count: how many request/response exchanges the connection
carried. -/
def handleConn (cfgVersion : Str) (streamOk writeOk : Request → Bool) :
    List (Option Request) → Nat → Nat
  | [], count => count
  | none :: _, count => count
  | some req :: rest, count =>
    let count' := count + 1
    let keepAlive := computeKeepAlive cfgVersion req.headers
    if needsStreaming req then
      let shouldKeepAlive := keepAlive ∧ count' < maxRequestsPerConn
      if ¬ streamOk req then count'
      else if ¬ shouldKeepAlive then count'
      else handleConn cfgVersion streamOk writeOk rest count'
    else
      let keepAlive' := keepAlive ∧ count' < maxRequestsPerConn
      if ¬ writeOk req then count'
      else if ¬ keepAlive' then count'
      else handleConn cfgVersion streamOk writeOk rest count'

/-! ## Path canonicalisation (Go `path/filepath`, Unix rules)

`filepath.Clean` processes the slash-separated elements of a path with a
stack: empty and `.` elements are dropped; `..` pops the previous element
when one is there, is dropped at the root of a rooted path, and is kept
for a relative path that cannot pop.  `filepath.Join` joins its non-empty
arguments with a slash and cleans the result. -/

/-- One step of `filepath.Clean`'s element processing; the stack is kept
most-recent-first. -/
def cleanPush (rooted : Bool) (stack : List Str) (elem : Str) : List Str :=
  if elem = [] ∨ elem = ['.'] then stack
  else if elem = ['.', '.'] then
    match stack with
    | [] => if rooted then [] else [['.', '.']]
    | top :: rest => if top = ['.', '.'] then elem :: top :: rest else rest
  else elem :: stack

/-- The cleaned element list of a path, in order. -/
def cleanElems (rooted : Bool) (elems : List Str) : List Str :=
  (elems.foldl (cleanPush rooted) []).reverse

/-- Join path elements with `'/'`. -/
def joinSlash : List Str → Str
  | [] => []
  | [x] => x
  | x :: y :: rest => x ++ '/' :: joinSlash (y :: rest)

/-- Rebuild a path string from its rooted flag and cleaned elements, as
`filepath.Clean` renders its result (`"/"` or `"."` when no element
remains). -/
def rebuildPath (rooted : Bool) (comps : List Str) : Str :=
  if rooted then '/' :: joinSlash comps
  else if comps = [] then ['.'] else joinSlash comps

/-- `filepath.Clean` (Unix). -/
def goClean (s : Str) : Str :=
  match s with
  | [] => ['.']
  | c :: _ =>
    let rooted := c = '/'
    rebuildPath rooted (cleanElems rooted (splitOnChar '/' s))

/-- `filepath.Join(a, b)` (Unix): empty arguments are skipped, the rest
joined with `'/'` and cleaned. -/
def goJoin (a b : Str) : Str :=
  if a = [] then (if b = [] then [] else goClean b)
  else if b = [] then goClean a
  else goClean (a ++ '/' :: b)

/-- The rooted flag and cleaned element list of a path string. -/
def pathElems (s : Str) : List Str :=
  cleanElems (s.head? = some '/') (splitOnChar '/' s)

/-- A path element that names a real directory-entry step: not empty, not
`.`, not `..`, and free of separators.  `filepath.Clean` of a rooted path
only ever emits such elements; the confinement argument tracks them. -/
def plainElem (c : Str) : Prop :=
  c ≠ [] ∧ c ≠ ['.'] ∧ c ≠ ['.', '.'] ∧ '/' ∉ c

/-- `filepath.Ext`: the suffix of the final slash-separated element
starting at its last dot, `""` when there is none. -/
def goExtAux : Str → Str → Str
  | [], _ => []
  | c :: rest, acc =>
    if c = '/' then []
    else if c = '.' then '.' :: acc
    else goExtAux rest (c :: acc)

/-- `filepath.Ext(path)`. -/
def goExt (s : Str) : Str := goExtAux s.reverse []

/-! ## File server (`internal/handler/fileserver.go`)

The OS and the Go standard-library collaborators are parameters of the
model: `statFn`/`readFn` give the filesystem visible to `os.Stat` and
`os.ReadFile`/`os.Open`+read, `gzipFn` is the deterministic gzip encoder
(`none` = encoding error), `parseTimeFn` and `fmt1123Fn` abstract
`parseHTTPTime` and `Format(time.RFC1123)` on instants measured in
nanoseconds (Go `Time`'s zero value is instant 0), `nowStr` is the
rendered `time.Now()`, and `mimeFn` is `mime.TypeByExtension`. -/

/-- What `os.Stat` reports for a path. -/
structure FileInfo where
  isDir : Bool
  modTimeNs : Nat
  size : Nat
  deriving DecidableEq, Repr

/-- Outcome of `os.Stat`: the file is absent, the stat failed otherwise,
or it succeeded. -/
inductive StatResult where
  | notExist : StatResult
  | otherErr : StatResult
  | found : FileInfo → StatResult
  deriving DecidableEq, Repr

/-- The external collaborators of the file server. -/
structure Env where
  statFn : Str → StatResult
  readFn : Str → Option Str
  gzipFn : Str → Option Str
  parseTimeFn : Str → Option Nat
  fmt1123Fn : Nat → Str
  nowStr : Str
  mimeFn : Str → Str

/-- `protocol.Response`: version, numeric status, reason phrase, header
map, body. -/
structure GoResponse where
  version : Str
  statusCode : Nat
  status : Str
  headers : Headers
  body : Str
  deriving DecidableEq, Repr

/-- `protocol.NewResponse`. -/
def newResponse (statusCode : Nat) (status version body : Str) : GoResponse :=
  ⟨version, statusCode, status, [], body⟩

/-- The connection-header block every emitter sets (fileserver.go, e.g.
lines 392-397): `Connection: keep-alive` plus
`Keep-Alive: timeout=30, max=<remaining>` when keeping alive, else
`Connection: close`. -/
def setConnHeaders (hs : Headers) (keepAlive : Bool) (remaining : Nat) : Headers :=
  if keepAlive then
    upsert (upsert hs (str "Connection") (str "keep-alive"))
      (str "Keep-Alive") (str "timeout=30, max=" ++ natToStr remaining)
  else upsert hs (str "Connection") (str "close")

/-- `FileServer.sendError` (fileserver.go lines 379-408): a plain-text
`<code> - <status>` body with content, date, server and connection
headers. -/
def sendError (env : Env) (code : Nat) (status version : Str)
    (keepAlive : Bool) (remaining : Nat) : GoResponse :=
  let body := natToStr code ++ str " - " ++ status
  let resp := newResponse code status version body
  let hs := upsert (upsert (upsert (upsert resp.headers
    (str "Content-Type") (str "text/plain"))
    (str "Content-Length") (natToStr body.length))
    (str "Date") env.nowStr)
    (str "Server") (str "GoWebServer/1.0")
  { resp with headers := setConnHeaders hs keepAlive remaining }

/-- `FileServer.sendNotModified` (fileserver.go lines 410-437): a 304
response with `Last-Modified`, `Cache-Control`, `Date`, `Server` and
connection headers and no body. -/
def sendNotModified (env : Env) (modTime : Nat) (version : Str)
    (keepAlive : Bool) (remaining : Nat) : GoResponse :=
  let resp := newResponse 304 (str "Not Modified") version []
  let hs := upsert (upsert (upsert (upsert resp.headers
    (str "Last-Modified") (env.fmt1123Fn modTime))
    (str "Cache-Control") (str "public, max-age=3600"))
    (str "Date") env.nowStr)
    (str "Server") (str "GoWebServer/1.0")
  { resp with headers := setConnHeaders hs keepAlive remaining }

/-- `getContentType` (fileserver.go lines 460-472): MIME type by
extension, defaulting to `application/octet-stream`. -/
def getContentType (mimeFn : Str → Str) (filePath : Str) : Str :=
  let contentType := mimeFn (goExt filePath)
  if contentType = [] then str "application/octet-stream" else contentType

/-- `minSizeForCompression` (compression middleware). -/
def minSizeForCompression : Nat := 1024

/-- `shouldCompress` (compression middleware): the lowercased media type
before any `;` parameter, trimmed, must be on the whitelist. -/
def shouldCompress (contentType : Str) : Bool :=
  let ct := trimSpace (toLowerStr ((splitOnChar ';' contentType).headD []))
  ct = str "text/html" ∨ ct = str "text/css" ∨ ct = str "text/javascript" ∨
  ct = str "text/plain" ∨ ct = str "text/xml" ∨ ct = str "application/json" ∨
  ct = str "application/javascript" ∨ ct = str "application/xml" ∨
  ct = str "application/xml+rss" ∨ ct = str "application/xhtml+xml" ∨
  ct = str "image/svg+xml"

/-- `acceptsGzip` (compression middleware): some comma-separated token of
the lowercased `Accept-Encoding` value, once trimmed, is `gzip` or starts
with `gzip;`. -/
def acceptsGzip (acceptEncoding : Str) : Bool :=
  if acceptEncoding = [] then false
  else (splitOnChar ',' (toLowerStr acceptEncoding)).any fun encoding =>
    trimSpace encoding = str "gzip" ∨ List.isPrefixOf (str "gzip;") (trimSpace encoding)

/-- `CompressResponse` (compression middleware): skip when the body is
empty or a `Content-Encoding` is already present; otherwise gzip the body
when the client accepts gzip, the content type is compressible and the
body is large enough, keeping the original when encoding fails or does
not shrink it; a compressible content type always gains
`Vary: Accept-Encoding`. -/
def compressResponse (gz : Str → Option Str) (req : Request) (resp : GoResponse) : GoResponse :=
  if resp.body = [] then resp
  else if lookupD resp.headers (str "Content-Encoding") ≠ [] then resp
  else
    let ct0 := lookupD resp.headers (str "Content-Type")
    let contentType := if ct0 = [] then str "text/plain" else ct0
    let shouldGzip := acceptsGzip (lookupD req.headers (str "Accept-Encoding")) ∧
      shouldCompress contentType ∧ resp.body.length ≥ minSizeForCompression
    if ¬ shouldGzip then
      if shouldCompress contentType then
        { resp with headers := upsert resp.headers (str "Vary") (str "Accept-Encoding") }
      else resp
    else
      match gz resp.body with
      | none =>
        { resp with headers := upsert resp.headers (str "Vary") (str "Accept-Encoding") }
      | some compressed =>
        if compressed.length ≥ resp.body.length then
          { resp with headers := upsert resp.headers (str "Vary") (str "Accept-Encoding") }
        else
          { resp with
            body := compressed,
            headers := upsert (upsert (upsert resp.headers
              (str "Content-Encoding") (str "gzip"))
              (str "Content-Length") (natToStr compressed.length))
              (str "Vary") (str "Accept-Encoding") }

/-- `MaxInMemorySize` (fileserver.go line 18). -/
def MaxInMemorySize : Nat := 1024 * 1024

/-- `Time.Truncate(time.Second)` on a non-negative instant in
nanoseconds. -/
def truncSec (t : Nat) : Nat := t - t % 1000000000

/-- `strconv.ParseInt(s, 10, 64)`: optional sign, at least one digit, no
other characters, result within `int64`. -/
def goParseInt (s : Str) : Option Int :=
  match s with
  | '+' :: rest => (digitsVal? rest).bind fun n =>
      if n ≤ 2 ^ 63 - 1 then some (n : Int) else none
  | '-' :: rest => (digitsVal? rest).bind fun n =>
      if n ≤ 2 ^ 63 then some (-(n : Int)) else none
  | _ => (digitsVal? s).bind fun n =>
      if n ≤ 2 ^ 63 - 1 then some (n : Int) else none

/-- `parseRangeHeader` (fileserver.go lines 253-291): only the form
`bytes=<start>-<end?>`, `end` defaulting to `fileSize - 1`; rejected when
`start < 0`, `end >= fileSize` or `start > end`. -/
def parseRangeHeader (rangeHeader : Str) (fileSize : Nat) : Option (Int × Int) :=
  if ¬ List.isPrefixOf (str "bytes=") rangeHeader then none
  else
    match splitOnChar '-' (rangeHeader.drop 6) with
    | [p0, p1] =>
      match goParseInt p0 with
      | none => none
      | some start =>
        match (if p1 = [] then some ((fileSize : Int) - 1) else goParseInt p1) with
        | none => none
        | some endPos =>
          if start < 0 ∨ endPos ≥ (fileSize : Int) ∨ start > endPos then none
          else some (start, endPos)
    | _ => none

/-- `FileServer.serveSmallFile` (fileserver.go lines 161-198): the whole
file in memory, full header block, then the compression middleware. -/
def serveSmallFile (env : Env) (filePath : Str) (fileSize : Nat) (modTime : Nat)
    (version : Str) (req : Request) (keepAlive : Bool) (remaining : Nat) : GoResponse :=
  match env.readFn filePath with
  | none => sendError env 500 (str "Error reading file") version keepAlive remaining
  | some content =>
    let contentType := getContentType env.mimeFn filePath
    let resp := newResponse 200 (str "OK") version content
    let hs := upsert (upsert (upsert (upsert (upsert (upsert resp.headers
      (str "Content-Type") contentType)
      (str "Accept-Ranges") (str "bytes"))
      (str "Last-Modified") (env.fmt1123Fn modTime))
      (str "Cache-Control") (str "public, max-age=3600"))
      (str "Date") env.nowStr)
      (str "Server") (str "GoWebServer/1.0")
    compressResponse env.gzipFn req
      { resp with headers := setConnHeaders hs keepAlive remaining }

/-- `FileServer.sendFullFile` (fileserver.go lines 294-328): 200 header
block with `Content-Length = fileSize`, then the whole file streamed. -/
def sendFullFile (env : Env) (content filePath : Str) (fileSize modTime : Nat)
    (version : Str) (keepAlive : Bool) (remaining : Nat) : GoResponse :=
  let resp := newResponse 200 (str "OK") version []
  let hs := upsert (upsert (upsert (upsert (upsert (upsert (upsert resp.headers
    (str "Content-Type") (getContentType env.mimeFn filePath))
    (str "Content-Length") (natToStr fileSize))
    (str "Accept-Ranges") (str "bytes"))
    (str "Last-Modified") (env.fmt1123Fn modTime))
    (str "Cache-Control") (str "public, max-age=3600"))
    (str "Date") env.nowStr)
    (str "Server") (str "GoWebServer/1.0")
  { resp with headers := setConnHeaders hs keepAlive remaining, body := content }

/-- `FileServer.sendRangeFile` (fileserver.go lines 332-376): seek to
`start`, 206 header block with `Content-Range` and
`Content-Length = end - start + 1`, then exactly that many bytes. -/
def sendRangeFile (env : Env) (content : Str) (start endPos : Int) (filePath : Str)
    (fileSize modTime : Nat) (version : Str) (keepAlive : Bool) (remaining : Nat) :
    GoResponse :=
  let contentLength := endPos - start + 1
  let resp := newResponse 206 (str "Partial Content") version []
  let hs := upsert (upsert (upsert (upsert (upsert (upsert (upsert (upsert resp.headers
    (str "Content-Type") (getContentType env.mimeFn filePath))
    (str "Content-Length") (intToStr contentLength))
    (str "Content-Range")
      (str "bytes " ++ intToStr start ++ str "-" ++ intToStr endPos ++
        str "/" ++ natToStr fileSize))
    (str "Accept-Ranges") (str "bytes"))
    (str "Last-Modified") (env.fmt1123Fn modTime))
    (str "Cache-Control") (str "public, max-age=3600"))
    (str "Date") env.nowStr)
    (str "Server") (str "GoWebServer/1.0")
  { resp with
      headers := setConnHeaders hs keepAlive remaining
      body := (content.drop start.toNat).take contentLength.toNat }

/-- The 416 emission of `serveLargeFile` (fileserver.go lines 220-244):
status 416, sentinel `Content-Range: bytes */<size>`, date, server and
connection headers, no body. -/
def send416 (env : Env) (fileSize : Nat) (version : Str)
    (keepAlive : Bool) (remaining : Nat) : GoResponse :=
  let resp := newResponse 416 (str "Range Not Satisfiable") version []
  let hs := upsert (upsert (upsert resp.headers
    (str "Content-Range") (str "bytes */" ++ natToStr fileSize))
    (str "Date") env.nowStr)
    (str "Server") (str "GoWebServer/1.0")
  { resp with headers := setConnHeaders hs keepAlive remaining }

/-- `FileServer.serveLargeFile` (fileserver.go lines 203-249): open the
file, serve it whole when no `Range` header is present, else serve the
parsed range or answer 416 with the sentinel `Content-Range` and no
body. -/
def serveLargeFile (env : Env) (req : Request) (filePath : Str) (fileSize modTime : Nat)
    (version : Str) (keepAlive : Bool) (remaining : Nat) : GoResponse :=
  match env.readFn filePath with
  | none => sendError env 500 (str "Error opening file") version keepAlive remaining
  | some content =>
    let rangeHeader := lookupD req.headers (str "Range")
    if rangeHeader = [] then
      sendFullFile env content filePath fileSize modTime version keepAlive remaining
    else
      match parseRangeHeader rangeHeader fileSize with
      | none => send416 env fileSize version keepAlive remaining
      | some (start, endPos) =>
        sendRangeFile env content start endPos filePath fileSize modTime version
          keepAlive remaining

/-- The path-safety prologue of `ServeFileStream` (fileserver.go lines
93-105): strip the query string, clean the path, refuse (`none`, the 403
case) when the cleaned path still contains `".."`, else join onto the
root. -/
def resolveStaticPath (root reqPath : Str) : Option Str :=
  let path := (splitOnChar '?' reqPath).headD []
  let cleanPath := goClean path
  if containsSub cleanPath (str "..") then none
  else some (goJoin root cleanPath)

/-- The size-based branch of `ServeFileStream` (fileserver.go lines
147-157). -/
def serveBySize (env : Env) (req : Request) (filePath : Str) (fileSize modTime : Nat)
    (keepAlive : Bool) (remaining : Nat) : GoResponse :=
  if fileSize ≤ MaxInMemorySize then
    serveSmallFile env filePath fileSize modTime req.version req keepAlive remaining
  else
    serveLargeFile env req filePath fileSize modTime req.version keepAlive remaining

/-- `FileServer.ServeFileStream` (fileserver.go lines 92-157): path
safety, stat, directory `index.html` resolution, the `If-Modified-Since`
check (skipped for the zero modification time), then delivery by size.
The value is the response the connection receives. -/
def serveFileStream (env : Env) (root : Str) (req : Request)
    (keepAlive : Bool) (remaining : Nat) : GoResponse :=
  match resolveStaticPath root req.path with
  | none => sendError env 403 (str "Forbidden") req.version keepAlive remaining
  | some filePath =>
    match env.statFn filePath with
    | .notExist => sendError env 404 (str "Not Found") req.version keepAlive remaining
    | .otherErr =>
      sendError env 500 (str "Internal Server Error") req.version keepAlive remaining
    | .found fileInfo =>
      let resolved : Option (Str × FileInfo) :=
        if fileInfo.isDir then
          match env.statFn (goJoin filePath (str "index.html")) with
          | .found newInfo => some (goJoin filePath (str "index.html"), newInfo)
          | _ => none
        else some (filePath, fileInfo)
      match resolved with
      | none =>
        sendError env 403 (str "Directory listing disabled") req.version keepAlive remaining
      | some (filePath, fileInfo) =>
        let modTime := fileInfo.modTimeNs
        let ims := lookupD req.headers (str "If-Modified-Since")
        if modTime ≠ 0 ∧ ims ≠ [] then
          match env.parseTimeFn ims with
          | some ifModTime =>
            let modTime2 := truncSec modTime
            let ifModTime2 := truncSec ifModTime
            if ¬ modTime2 > ifModTime2 then
              sendNotModified env modTime2 req.version keepAlive remaining
            else serveBySize env req filePath fileInfo.size modTime2 keepAlive remaining
          | none => serveBySize env req filePath fileInfo.size modTime keepAlive remaining
        else serveBySize env req filePath fileInfo.size modTime keepAlive remaining

/-! ## Concrete fixtures used by witnesses and counterexamples -/

/-- An environment whose filesystem is empty and whose collaborators all
fail or return nothing. -/
def emptyEnv : Env :=
  ⟨fun _ => .notExist, fun _ => none, fun _ => none, fun _ => none,
   fun _ => [], [], fun _ => []⟩

/-- The wire bytes of the traversal request of boundary scenario 3. -/
def c1bytes : Str := str "GET /static/../etc/passwd HTTP/1.1\r\nHost: x\r\n\r\n"

/-- The request those bytes parse to. -/
def c1req : Request :=
  ⟨str "GET", str "/static/../etc/passwd", str "HTTP/1.1", [(str "Host", str "x")], []⟩

/-- A 4096-byte read chunk, the largest `ParseRequest`'s reusable buffer
can deliver. -/
def chunk4096 : Str := List.replicate 4096 'a'

/-- A request whose header block declares a 1 100 000-byte body: 43 header
bytes followed by 269 full read chunks (1 101 824 body bytes on the
wire). -/
def overLimitChunks : List Str :=
  str "GET / HTTP/1.1\r\nContent-Length: 1100000\r\n\r\n" :: List.replicate 269 chunk4096

/-- Total number of bytes a chunked stream carries. -/
def totalLen (chunks : List Str) : Nat := (chunks.map List.length).sum

/-- The wire bytes of a request whose `Connection: close` header is
received with a lowercase name. -/
def c4bytes : Str := str "GET / HTTP/1.1\r\nconnection: close\r\n\r\n"

/-- The request those bytes parse to: the header map keeps the received
lowercase name. -/
def c4req : Request :=
  ⟨str "GET", str "/", str "HTTP/1.1", [(str "connection", str "close")], []⟩

/-- A POST whose `Content-Length: 5` arrives with ten body bytes already
in the first chunk. -/
def c5chunks : List Str :=
  [str "POST /e HTTP/1.1\r\nContent-Length: 5\r\n\r\nHELLOEXTRA"]

/-- The request those bytes parse to: the body is truncated to 5 bytes. -/
def c5req : Request :=
  ⟨str "POST", str "/e", str "HTTP/1.1", [(str "Content-Length", str "5")], str "HELLO"⟩

/-- The wire bytes of a request whose all-digits `Content-Length` value
`10^20 - 1` overflows a 64-bit `int`. -/
def c5obytes : Str :=
  str "POST /e HTTP/1.1\r\nContent-Length: 99999999999999999999\r\n\r\n"

/-- The request those bytes parse to: `fmt.Sscanf` fails on the range
error, `expectedLength` keeps its zero value, the body loop is skipped and
the body stays empty. -/
def c5oreq : Request :=
  ⟨str "POST", str "/e", str "HTTP/1.1",
    [(str "Content-Length", str "99999999999999999999")], []⟩

/-- A 2 000 000-byte file body. -/
def bigContent : Str := List.replicate 2000000 'a'

/-- An environment holding one 2 000 000-byte file `public/static/big.bin`
with modification instant 7. -/
def envBig : Env :=
  ⟨fun p => if p = str "public/static/big.bin" then .found ⟨false, 7, 2000000⟩ else .notExist,
   fun p => if p = str "public/static/big.bin" then some bigContent else none,
   fun _ => none, fun _ => none, fun n => str "T" ++ natToStr n, str "NOW", fun _ => []⟩

/-- An environment holding one 5-byte file `public/static/a.txt` with
modification instant 5 000 000 001 ns, whose date parser understands the
string `IMS` as instant 5 000 000 002 ns. -/
def envSmall : Env :=
  ⟨fun p => if p = str "public/static/a.txt" then .found ⟨false, 5000000001, 5⟩ else .notExist,
   fun p => if p = str "public/static/a.txt" then some (str "hello") else none,
   fun _ => none, fun s => if s = str "IMS" then some 5000000002 else none,
   fun n => str "T" ++ natToStr n, str "NOW", fun _ => []⟩

/-- Like `envSmall` but the file's modification instant is the zero
time. -/
def envZeroTime : Env :=
  ⟨fun p => if p = str "public/static/a.txt" then .found ⟨false, 0, 5⟩ else .notExist,
   fun p => if p = str "public/static/a.txt" then some (str "hello") else none,
   fun _ => none, fun s => if s = str "IMS" then some 5000000002 else none,
   fun n => str "T" ++ natToStr n, str "NOW", fun _ => []⟩

/-! # Theorems -/

/-! ## Header-map lemmas -/

theorem lookup?_upsert_self (m : Headers) (k v : Str) :
    lookup? (upsert m k v) k = some v := by
  induction m with
  | nil => simp [upsert, lookup?]
  | cons hd tl ih =>
    obtain ⟨k', v'⟩ := hd
    by_cases h : k' = k <;> simp [upsert, lookup?, h, ih]

theorem lookup?_upsert_ne (m : Headers) (k v k' : Str) (h : k' ≠ k) :
    lookup? (upsert m k v) k' = lookup? m k' := by
  induction m with
  | nil => simp [upsert, lookup?, Ne.symm h]
  | cons hd tl ih =>
    obtain ⟨k₀, v₀⟩ := hd
    by_cases h0 : k₀ = k
    · subst h0
      simp [upsert, lookup?, Ne.symm h, h]
    · simp [upsert, lookup?, h0, ih]

theorem lookupD_upsert_self (m : Headers) (k v : Str) :
    lookupD (upsert m k v) k = v := by
  simp [lookupD, lookup?_upsert_self]

theorem lookupD_upsert_ne (m : Headers) (k v k' : Str) (h : k' ≠ k) :
    lookupD (upsert m k v) k' = lookupD m k' := by
  simp [lookupD, lookup?_upsert_ne m k v k' h]

theorem upsert_upsert (m : Headers) (k v w : Str) :
    upsert (upsert m k v) k w = upsert m k w := by
  induction m with
  | nil => simp [upsert]
  | cons hd tl ih =>
    obtain ⟨k₀, v₀⟩ := hd
    by_cases h0 : k₀ = k <;> simp [upsert, h0, ih]

/-! ## C8: keep-alive cap -/

theorem handleConn_le (cfgV : Str) (sOk wOk : Request → Bool) :
    ∀ (inputs : List (Option Request)) (count : Nat), count < maxRequestsPerConn →
      handleConn cfgV sOk wOk inputs count ≤ maxRequestsPerConn := by
  intro inputs
  induction inputs with
  | nil => intro count h; simpa [handleConn] using Nat.le_of_lt h
  | cons head tail ih =>
    intro count h
    simp only [maxRequestsPerConn] at h ⊢
    cases head with
    | none => simpa [handleConn] using Nat.le_of_lt h
    | some req =>
      simp only [handleConn, maxRequestsPerConn]
      split
      · split
        · omega
        · split
          · omega
          · next hska =>
            obtain ⟨-, h2⟩ := not_not.mp hska
            simpa [maxRequestsPerConn] using ih (count + 1) (by simpa [maxRequestsPerConn] using h2)
      · split
        · omega
        · split
          · omega
          · next hka =>
            obtain ⟨-, h2⟩ := not_not.mp hka
            simpa [maxRequestsPerConn] using ih (count + 1) (by simpa [maxRequestsPerConn] using h2)

/-- Claim C8: on every connection the keep-alive loop of
`handleConnection` carries out at most `maxRequestsPerConn = 100`
request/response exchanges — whatever the parse results, handler
outcomes and write outcomes are, and on both the streaming and the
buffered branch — because once the counter reaches 100 the keep-alive
flag is forced off and the loop returns. -/
theorem c8_keepalive_cap (cfgV : Str) (sOk wOk : Request → Bool)
    (inputs : List (Option Request)) :
    handleConn cfgV sOk wOk inputs 0 ≤ maxRequestsPerConn :=
  handleConn_le cfgV sOk wOk inputs 0 (by decide)

/-! ## C9: the compression middleware is idempotent -/

/-- Claim C9: `CompressResponse` is idempotent — applying the middleware a
second time to any response, for the same request, leaves the body and
the header map exactly as after the first application.  (The gzip encoder
is an arbitrary deterministic function here; every control path of a
second run either hits the `Content-Encoding`-already-set guard, the
empty-body guard, or re-takes the very branch of the first run and
re-writes the same header values.) -/
theorem c9_compress_idem (gz : Str → Option Str) (req : Request) (resp : GoResponse) :
    compressResponse gz req (compressResponse gz req resp) = compressResponse gz req resp := by
  obtain ⟨v0, c0, s0, h0, b0⟩ := resp
  have l1 : ∀ w, lookupD (upsert h0 (str "Vary") w) (str "Content-Encoding")
      = lookupD h0 (str "Content-Encoding") :=
    fun w => lookupD_upsert_ne _ _ _ _ (by decide)
  have l2 : ∀ w, lookupD (upsert h0 (str "Vary") w) (str "Content-Type")
      = lookupD h0 (str "Content-Type") :=
    fun w => lookupD_upsert_ne _ _ _ _ (by decide)
  have l3 : ∀ x y, lookupD (upsert (upsert (upsert h0
        (str "Content-Encoding") (str "gzip"))
        (str "Content-Length") x) (str "Vary") y) (str "Content-Encoding") = str "gzip" := by
    intro x y
    rw [lookupD_upsert_ne _ _ _ _ (by decide), lookupD_upsert_ne _ _ _ _ (by decide),
      lookupD_upsert_self]
  by_cases hb : b0 = []
  · simp [compressResponse, hb]
  by_cases hce : lookupD h0 (str "Content-Encoding") = []
  case neg => simp [compressResponse, hb, hce]
  by_cases hac : acceptsGzip (lookupD req.headers (str "Accept-Encoding")) = true
  case neg =>
    by_cases hcp : shouldCompress (if lookupD h0 (str "Content-Type") = []
        then str "text/plain" else lookupD h0 (str "Content-Type")) = true
    · simp [compressResponse, hb, hce, hac, hcp, l1, l2, upsert_upsert]
    · simp [compressResponse, hb, hce, hac, hcp, l1, l2]
  by_cases hcp : shouldCompress (if lookupD h0 (str "Content-Type") = []
      then str "text/plain" else lookupD h0 (str "Content-Type")) = true
  case neg => simp [compressResponse, hb, hce, hac, hcp, l1, l2]
  by_cases hlen : b0.length ≥ minSizeForCompression
  case neg => simp [compressResponse, hb, hce, hac, hcp, hlen, l1, l2, upsert_upsert]
  cases hgz : gz b0 with
  | none => simp [compressResponse, hb, hce, hac, hcp, hlen, hgz, l1, l2, upsert_upsert]
  | some compressed =>
    by_cases hshr : compressed.length ≥ b0.length
    · simp [compressResponse, hb, hce, hac, hcp, hlen, hgz, hshr, l1, l2, upsert_upsert]
    · have hgg : str "gzip" ≠ [] := by decide
      by_cases hcnil : compressed = []
      · simp [compressResponse, hb, hce, hac, hcp, hlen, hgz, hshr, hcnil, l1, l2, l3, hgg]
      · simp [compressResponse, hb, hce, hac, hcp, hlen, hgz, hshr, hcnil, l1, l2, l3, hgg]

/-! ## C4: the Connection-header lookup is case-sensitive -/

/-- Counterexample to claim C4: the request
`GET / HTTP/1.1\r\nconnection: close\r\n\r\n` carries a
`Connection: close` header received with a lowercase name; the parser
stores the name as received, the keep-alive computation looks up the
exact key `"Connection"`, misses, and yields `keep_alive = true` — not
`false` as the claim demands for every casing of the header name. -/
theorem c4_counterexample :
    parseRequestCore [c4bytes] = some c4req ∧
      computeKeepAlive (str "HTTP/1.1") c4req.headers = true := by
  constructor
  · decide
  · decide

/-- Claim C4, amended: the keep-alive loop computes `keep_alive = false`
for a request whose header map holds the key spelled exactly
`Connection` (header-name lookups are exact map lookups on the received
spelling), whatever the casing of its *value* is; other spellings of the
name are not found, so only the canonical name is honoured. -/
theorem c4_connection_close_canonical (cfgVersion : Str) (headers : Headers) (v : Str)
    (hconn : lookup? headers (str "Connection") = some v)
    (hval : toLowerStr v = str "close") :
    computeKeepAlive cfgVersion headers = false := by
  rw [computeKeepAlive]
  split
  · rfl
  · rw [hconn]
    simp [hval]

theorem c4_connection_close_canonical_witness :
    lookup? [(str "Connection", str "CLOSE")] (str "Connection") = some (str "CLOSE") ∧
      toLowerStr (str "CLOSE") = str "close" ∧
      computeKeepAlive (str "HTTP/1.1") [(str "Connection", str "CLOSE")] = false :=
  ⟨by decide, by decide,
    c4_connection_close_canonical (str "HTTP/1.1") [(str "Connection", str "CLOSE")]
      (str "CLOSE") (by decide) (by decide)⟩

/-! ## C3: the size guard covers only the header phase -/

theorem readHeadersLoop_le_max :
    ∀ (chunks : List Str) (acc allData : Str) (rest : List Str),
      readHeadersLoop chunks acc = some (allData, rest) →
      allData.length ≤ MaxRequestSize := by
  intro chunks
  induction chunks with
  | nil => intro acc d r h; simp [readHeadersLoop] at h
  | cons c cs ih =>
    intro acc d r h
    rw [readHeadersLoop] at h
    split at h
    · exact absurd h (by simp)
    · split at h
      · exact absurd h (by simp)
      · split at h
        · rw [Option.some.injEq, Prod.mk.injEq] at h
          obtain ⟨rfl, rfl⟩ := h
          omega
        · split at h
          · rw [Option.some.injEq, Prod.mk.injEq] at h
            obtain ⟨rfl, rfl⟩ := h
            omega
          · exact ih (acc ++ c) d r h

theorem readBodyLoop_replicate_isSome (k : Nat) :
    ∀ (cur : Str) (L : Nat), L ≤ cur.length + 4096 * k →
      (readBodyLoop L (List.replicate k chunk4096) cur).isSome = true := by
  induction k with
  | zero =>
    intro cur L h
    rw [List.replicate_zero, readBodyLoop, if_pos (by omega)]
    rfl
  | succ k ih =>
    intro cur L h
    rw [List.replicate_succ, readBodyLoop]
    split
    · rfl
    · refine ih (cur ++ chunk4096) L ?_
      have hc : chunk4096.length = 4096 := List.length_replicate 4096 'a'
      simp only [List.length_append, hc]
      omega

/-- For any tail of read chunks, the over-limit request's header phase
and header parsing are fixed, so the parse succeeds exactly when the
body-completion loop does — no size condition is consulted after the
header phase. -/
theorem c3_parse_generic (rest : List Str) :
    (parseRequestCore (str "GET / HTTP/1.1\r\nContent-Length: 1100000\r\n\r\n" :: rest)).isSome
      = (readBodyLoop 1100000 rest []).isSome := by
  have h1 : readHeadersLoop (str "GET / HTTP/1.1\r\nContent-Length: 1100000\r\n\r\n" :: rest) []
      = some (str "GET / HTTP/1.1\r\nContent-Length: 1100000\r\n\r\n", rest) := by
    rw [readHeadersLoop]
    simp only [List.nil_append]
    rw [if_neg (by decide), if_neg (by decide), if_pos (by decide)]
  have h2 : splitHeaderBody (str "GET / HTTP/1.1\r\nContent-Length: 1100000\r\n\r\n")
      = some (str "GET / HTTP/1.1\r\nContent-Length: 1100000", []) := by
    rw [splitHeaderBody]
    rw [show firstIdxSub (str "GET / HTTP/1.1\r\nContent-Length: 1100000\r\n\r\n") crlf2
        = some 39 from by decide]
    decide
  have h3 : splitOnChar '\n' (str "GET / HTTP/1.1\r\nContent-Length: 1100000")
      = [str "GET / HTTP/1.1\r", str "Content-Length: 1100000"] := by decide
  have h4 : fields (trimSpace (str "GET / HTTP/1.1\r"))
      = [str "GET", str "/", str "HTTP/1.1"] := by decide
  have h5 : parseHeaderLines [str "Content-Length: 1100000"]
      = [(str "Content-Length", str "1100000")] := by decide
  have h6 : lookup? [(str "Content-Length", str "1100000")] (str "Content-Length")
      = some (str "1100000") := by decide
  have h7 : sscanfInt (str "1100000") = 1100000 := by decide
  have h9 : (1100000 : Int).toNat = 1100000 := rfl
  simp only [parseRequestCore, h1, h2, h3, h4, h5, computeBody, h6, h7]
  rw [if_pos (by norm_num)]
  rw [h9]
  cases hr : readBodyLoop 1100000 rest [] <;> simp [hr]

/-- Counterexample to claim C3: a request whose header block declares
`Content-Length: 1100000` followed by 1 101 824 body bytes on the wire —
1 101 867 bytes in total, past `MaxRequestSize` — parses successfully:
the body-reading phase of `ParseRequest` checks no size limit, so the
declared body is accumulated in full. -/
theorem c3_counterexample :
    (parseRequestCore overLimitChunks).isSome = true ∧
      totalLen overLimitChunks > MaxRequestSize := by
  constructor
  · rw [show overLimitChunks
        = str "GET / HTTP/1.1\r\nContent-Length: 1100000\r\n\r\n"
            :: List.replicate 269 chunk4096 from rfl]
    rw [c3_parse_generic]
    exact readBodyLoop_replicate_isSome 269 [] 1100000 (by norm_num)
  · have hlen : (str "GET / HTTP/1.1\r\nContent-Length: 1100000\r\n\r\n").length = 43 := by
      decide
    have hc : chunk4096.length = 4096 := List.length_replicate 4096 'a'
    rw [overLimitChunks, totalLen]
    simp only [List.map_cons, List.map_replicate, List.sum_cons, List.sum_replicate,
      smul_eq_mul, hlen, hc]
    norm_num [MaxRequestSize]

/-- Claim C3, amended: the 1 MiB guard is enforced while the header
section is being accumulated — whenever the accumulation loop succeeds,
the data it accepted (header block plus the initial body fragment read
with it) is at most `MaxRequestSize` bytes, and exceeding the limit
before a terminator aborts the parse.  The guard does *not* extend to
the body phase: a well-formed `Content-Length` makes the parser read the
declared body without any total-size bound (see the counterexample). -/
theorem c3_header_phase_guard (chunks : List Str) (allData : Str) (rest : List Str)
    (h : readHeadersLoop chunks [] = some (allData, rest)) :
    allData.length ≤ MaxRequestSize :=
  readHeadersLoop_le_max chunks [] allData rest h

theorem c3_header_phase_guard_witness :
    readHeadersLoop [str "GET / HTTP/1.1\r\n\r\n"] []
        = some (str "GET / HTTP/1.1\r\n\r\n", ([] : List Str)) ∧
      (str "GET / HTTP/1.1\r\n\r\n").length ≤ MaxRequestSize :=
  ⟨by decide, c3_header_phase_guard [str "GET / HTTP/1.1\r\n\r\n"]
    (str "GET / HTTP/1.1\r\n\r\n") [] (by decide)⟩

/-! ## C5: the body has exactly `Content-Length` bytes -/

theorem isSpace_of_digit (c : Char) (h1 : '0' ≤ c) (h2 : c ≤ '9') : isSpace c = false := by
  simp only [isSpace, decide_eq_false_iff_not]
  push_neg
  refine ⟨?_, ?_, ?_, ?_, ?_, ?_⟩ <;> rintro rfl <;> revert h2 <;> revert h1 <;> decide

theorem sscanfInt_digits (v : Str) (hdig : isDigits v = true)
    (hle : (digitsVal? v).getD 0 ≤ maxInt64) :
    sscanfInt v = ((digitsVal? v).getD 0 : Nat) := by
  have hd : v ≠ [] ∧ ∀ c ∈ v, '0' ≤ c ∧ c ≤ '9' := by simpa [isDigits] using hdig
  obtain ⟨hne, hall⟩ := hd
  cases v with
  | nil => exact absurd rfl hne
  | cons c rest =>
    have hc := hall c (by simp)
    have hs0 : isSpace c = false := isSpace_of_digit c hc.1 hc.2
    have hdw : (c :: rest).dropWhile isSpace = c :: rest := by
      rw [List.dropWhile_cons, hs0]
      simp
    have htw : (c :: rest).takeWhile (fun x => decide ('0' ≤ x ∧ x ≤ '9')) = c :: rest := by
      rw [List.takeWhile_eq_self_iff]
      intro a ha
      exact decide_eq_true (hall a ha)
    rw [sscanfInt]
    simp only [hdw]
    split
    · rename_i r' heq
      injection heq with h1 h2
      subst h1
      exact absurd hc.1 (by decide)
    · rename_i r' heq
      injection heq with h1 h2
      subst h1
      exact absurd hc.1 (by decide)
    · rw [htw, if_pos hle]

theorem readBodyLoop_ge (L : Nat) :
    ∀ (chunks : List Str) (cur full : Str),
      readBodyLoop L chunks cur = some full → full.length ≥ L := by
  intro chunks
  induction chunks with
  | nil =>
    intro cur full h
    rw [readBodyLoop] at h
    split at h
    · next h1 =>
      rw [Option.some.injEq] at h
      subst h
      omega
    · exact absurd h (by simp)
  | cons c cs ih =>
    intro cur full h
    rw [readBodyLoop] at h
    split at h
    · next h1 =>
      rw [Option.some.injEq] at h
      subst h
      omega
    · exact ih (cur ++ c) full h

theorem computeBody_length (rest : List Str) (bodyInit : Str) (headers : Headers)
    (body v : Str) (hcb : computeBody rest bodyInit headers = some body)
    (hlk : lookup? headers (str "Content-Length") = some v)
    (hdig : isDigits v = true)
    (hle : (digitsVal? v).getD 0 ≤ maxInt64) :
    body.length = (digitsVal? v).getD 0 := by
  simp only [computeBody, hlk] at hcb
  rw [sscanfInt_digits v hdig hle] at hcb
  by_cases hpos : (digitsVal? v).getD 0 > 0
  · rw [if_pos (by exact_mod_cast hpos)] at hcb
    split at hcb
    · exact absurd hcb (by simp)
    · next full hfull =>
      rw [Option.some.injEq] at hcb
      subst hcb
      have hge := readBodyLoop_ge _ _ _ _ hfull
      simp only [Int.toNat_natCast] at hge ⊢
      simp [List.length_take]
      omega
  · rw [if_neg (by exact_mod_cast hpos)] at hcb
    rw [Option.some.injEq] at hcb
    subst hcb
    simp
    omega

/-- Counterexample to claim C5: the request with the well-formed
all-digits `Content-Length` value `99999999999999999999 = 10^20 - 1`
(beyond `math.MaxInt64`) is accepted by `ParseRequest`, but its stored
body is empty, not `10^20 - 1` bytes long: `fmt.Sscanf`'s range error
leaves the zero-initialised `expectedLength` at 0 and the body loop is
skipped. -/
theorem c5_counterexample :
    parseRequestCore [c5obytes] = some c5oreq ∧
      lookup? c5oreq.headers (str "Content-Length")
        = some (str "99999999999999999999") ∧
      isDigits (str "99999999999999999999") = true ∧
      c5oreq.body.length ≠ (digitsVal? (str "99999999999999999999")).getD 0 :=
  ⟨by decide, by decide, by decide, by decide⟩

/-- Claim C5, amended: whenever `ParseRequest` accepts a request that
carries a well-formed (all-digits) `Content-Length` header whose value
`L ≥ 0` fits a 64-bit `int` (`L ≤ math.MaxInt64`), the stored body has
exactly `L` bytes — the body loop reads until at least `L` body bytes are
available and the parser truncates to `L`, discarding any excess (for
`L = 0` the body keeps its zero value `""`).  An overflowing value makes
`fmt.Sscanf` fail with its error ignored, so the request is accepted with
an empty body. -/
theorem c5_body_length (chunks : List Str) (req : Request) (v : Str)
    (hp : parseRequestCore chunks = some req)
    (hlk : lookup? req.headers (str "Content-Length") = some v)
    (hdig : isDigits v = true)
    (hle : (digitsVal? v).getD 0 ≤ maxInt64) :
    req.body.length = (digitsVal? v).getD 0 := by
  rw [parseRequestCore] at hp
  split at hp
  · exact absurd hp (by simp)
  · split at hp
    · exact absurd hp (by simp)
    · split at hp
      · exact absurd hp (by simp)
      · split at hp
        · next m p ver rest2 heq =>
          split at hp
          · exact absurd hp (by simp)
          · next body hcb =>
            rw [Option.some.injEq] at hp
            subst hp
            exact computeBody_length _ _ _ _ v hcb hlk hdig hle
        · exact absurd hp (by simp)

theorem c5_body_length_witness :
    parseRequestCore c5chunks = some c5req ∧
      lookup? c5req.headers (str "Content-Length") = some (str "5") ∧
      isDigits (str "5") = true ∧
      (digitsVal? (str "5")).getD 0 ≤ maxInt64 ∧
      c5req.body.length = (digitsVal? (str "5")).getD 0 :=
  ⟨by decide, by decide, by decide, by decide,
    c5_body_length c5chunks c5req (str "5") (by decide) (by decide) (by decide)
      (by decide)⟩

/-! ## C1: the traversal request of scenario 3 gets 404, not 403 -/

/-- Counterexample to claim C1: the request
`GET /static/../etc/passwd HTTP/1.1` parses with path
`/static/../etc/passwd`; `filepath.Clean` resolves the `..` (the cleaned
path `/etc/passwd` contains no `..`), so the 403 branch is not taken —
against an empty filesystem the file server answers 404 with body
`404 - Not Found`, not 403 with body `403 - Forbidden`. -/
theorem c1_counterexample :
    parseRequestCore [c1bytes] = some c1req ∧
      ¬ ((serveFileStream emptyEnv (str "./public") c1req true 99).statusCode = 403 ∧
        (serveFileStream emptyEnv (str "./public") c1req true 99).body
          = str "403 - Forbidden") := by
  constructor
  · decide
  · decide

/-- Claim C1, amended: for the request `GET /static/../etc/passwd`
the cleaned path is `/etc/passwd`, which the file server joins onto the
root `./public` as `public/etc/passwd` — a path inside the root; since no
such file exists there, the response is 404 with body `404 - Not Found`
(the 403 branch fires only when a `..` survives cleaning, which cannot
happen for this rooted path). -/
theorem c1_amended (env : Env) (keepAlive : Bool) (remaining : Nat)
    (hstat : env.statFn (str "public/etc/passwd") = .notExist) :
    (serveFileStream env (str "./public") c1req keepAlive remaining).statusCode = 404 ∧
      (serveFileStream env (str "./public") c1req keepAlive remaining).body
        = str "404 - Not Found" := by
  have hres : resolveStaticPath (str "./public") c1req.path
      = some (str "public/etc/passwd") := by decide
  constructor
  · simp only [serveFileStream, hres, hstat, sendError, newResponse]
  · simp only [serveFileStream, hres, hstat, sendError, newResponse]
    decide

theorem c1_amended_witness :
    emptyEnv.statFn (str "public/etc/passwd") = .notExist ∧
      ((serveFileStream emptyEnv (str "./public") c1req true 99).statusCode = 404 ∧
        (serveFileStream emptyEnv (str "./public") c1req true 99).body
          = str "404 - Not Found") :=
  ⟨rfl, c1_amended emptyEnv true 99 rfl⟩

/-! ## C10: HEAD is dispatched to streaming and answered like GET -/

/-- Claim C10: a `HEAD` request for a `/static/` path satisfies
`NeedsStreaming` and so is dispatched to the streaming file server, and
`ServeFileStream` never inspects the request method — the response it
writes for the `HEAD` request is byte-for-byte the one it writes for the
corresponding `GET`, body included. -/
theorem c10_head_like_get (env : Env) (root p ver : Str) (hs : Headers) (b : Str)
    (keepAlive : Bool) (remaining : Nat)
    (hpre : List.isPrefixOf (str "/static/") p = true) :
    needsStreaming ⟨str "HEAD", p, ver, hs, b⟩ = true ∧
      serveFileStream env root ⟨str "HEAD", p, ver, hs, b⟩ keepAlive remaining
        = serveFileStream env root ⟨str "GET", p, ver, hs, b⟩ keepAlive remaining := by
  constructor
  · simp [needsStreaming, hpre]
  · rfl

theorem c10_head_like_get_witness :
    List.isPrefixOf (str "/static/") (str "/static/a.txt") = true ∧
      (needsStreaming ⟨str "HEAD", str "/static/a.txt", str "HTTP/1.1", [], []⟩ = true ∧
        serveFileStream envSmall (str "public")
            ⟨str "HEAD", str "/static/a.txt", str "HTTP/1.1", [], []⟩ true 99
          = serveFileStream envSmall (str "public")
              ⟨str "GET", str "/static/a.txt", str "HTTP/1.1", [], []⟩ true 99) :=
  ⟨by decide, c10_head_like_get envSmall (str "public") (str "/static/a.txt")
    (str "HTTP/1.1") [] [] true 99 (by decide)⟩

/-! ## C7: 304 against the truncated If-Modified-Since instant -/

theorem compressResponse_statusCode (gz : Str → Option Str) (req : Request) (r : GoResponse) :
    (compressResponse gz req r).statusCode = r.statusCode := by
  obtain ⟨v0, c0, s0, h0, b0⟩ := r
  by_cases hb : b0 = []
  · simp [compressResponse, hb]
  by_cases hce : lookupD h0 (str "Content-Encoding") = []
  case neg => simp [compressResponse, hb, hce]
  by_cases hac : acceptsGzip (lookupD req.headers (str "Accept-Encoding")) = true
  case neg =>
    by_cases hcp : shouldCompress (if lookupD h0 (str "Content-Type") = []
        then str "text/plain" else lookupD h0 (str "Content-Type")) = true <;>
      simp [compressResponse, hb, hce, hac, hcp]
  by_cases hcp : shouldCompress (if lookupD h0 (str "Content-Type") = []
      then str "text/plain" else lookupD h0 (str "Content-Type")) = true
  case neg => simp [compressResponse, hb, hce, hac, hcp]
  by_cases hlen : b0.length ≥ minSizeForCompression
  case neg => simp [compressResponse, hb, hce, hac, hcp, hlen]
  cases hgz : gz b0 with
  | none => simp [compressResponse, hb, hce, hac, hcp, hlen, hgz]
  | some compressed =>
    by_cases hshr : compressed.length ≥ b0.length <;>
      simp [compressResponse, hb, hce, hac, hcp, hlen, hgz, hshr]

theorem serveBySize_statusCode_ne_304 (env : Env) (req : Request) (fp : Str)
    (fsize mt : Nat) (ka : Bool) (rem : Nat) :
    (serveBySize env req fp fsize mt ka rem).statusCode ≠ 304 := by
  rw [serveBySize]
  split
  · simp only [serveSmallFile]
    split
    · simp [sendError, newResponse]
    · rw [compressResponse_statusCode]
      simp [newResponse]
  · simp only [serveLargeFile]
    split
    · simp [sendError, newResponse]
    · split
      · simp [sendFullFile, newResponse]
      · split
        · simp [send416, newResponse]
        · simp [sendRangeFile, newResponse]

/-- Counterexample to claim C7: a file whose modification instant is the
zero `Time` (`IsZero`) skips the `If-Modified-Since` check entirely — for
it `trunc_seconds(M) = 0 ≤ trunc_seconds(H)` for every parseable header
instant `H`, yet the server serves the file (200), not 304, falsifying
the claimed "if and only if". -/
theorem c7_counterexample :
    envZeroTime.parseTimeFn (str "IMS") = some 5000000002 ∧
      truncSec 0 ≤ truncSec 5000000002 ∧
      (serveFileStream envZeroTime (str "public")
          ⟨str "GET", str "/static/a.txt", str "HTTP/1.1",
            [(str "If-Modified-Since", str "IMS")], []⟩ true 99).statusCode ≠ 304 := by
  refine ⟨by decide, by decide, ?_⟩
  decide

/-- Claim C7, amended: for a request for an existing static file (not a
directory) with modification instant `M` that is not the zero time — the
code skips the conditional check when `ModTime().IsZero()` — carrying an
`If-Modified-Since` value the date parser understands as `H`, the
response is 304 if and only if `M` truncated to whole seconds is not
strictly after `H` truncated to whole seconds; and the 304 response
carries `Last-Modified`, `Cache-Control`, `Date`, `Server` and the
connection header, with no body. -/
theorem c7_not_modified (env : Env) (root : Str) (req : Request) (fp : Str)
    (M N H : Nat) (ims : Str) (keepAlive : Bool) (remaining : Nat)
    (hres : resolveStaticPath root req.path = some fp)
    (hstat : env.statFn fp = .found ⟨false, M, N⟩)
    (hM : M ≠ 0)
    (hims : lookupD req.headers (str "If-Modified-Since") = ims)
    (himsne : ims ≠ [])
    (hparse : env.parseTimeFn ims = some H) :
    ((serveFileStream env root req keepAlive remaining).statusCode = 304
        ↔ truncSec M ≤ truncSec H) ∧
      (truncSec M ≤ truncSec H →
        (serveFileStream env root req keepAlive remaining).body = [] ∧
        lookup? (serveFileStream env root req keepAlive remaining).headers
            (str "Last-Modified") = some (env.fmt1123Fn (truncSec M)) ∧
        lookup? (serveFileStream env root req keepAlive remaining).headers
            (str "Cache-Control") = some (str "public, max-age=3600") ∧
        lookup? (serveFileStream env root req keepAlive remaining).headers
            (str "Date") = some env.nowStr ∧
        lookup? (serveFileStream env root req keepAlive remaining).headers
            (str "Server") = some (str "GoWebServer/1.0") ∧
        lookup? (serveFileStream env root req keepAlive remaining).headers
            (str "Connection")
          = some (if keepAlive then str "keep-alive" else str "close")) := by
  have hstep : serveFileStream env root req keepAlive remaining
      = if ¬ truncSec M > truncSec H
          then sendNotModified env (truncSec M) req.version keepAlive remaining
          else serveBySize env req fp N (truncSec M) keepAlive remaining := by
    simp only [serveFileStream, hres, hstat, hims]
    rw [if_neg (show ¬(false = true) from by decide)]
    simp only [hparse]
    rw [if_pos (show (⟨false, M, N⟩ : FileInfo).modTimeNs ≠ 0 ∧ ims ≠ [] from ⟨hM, himsne⟩)]
  by_cases hcmp : truncSec M ≤ truncSec H
  · rw [hstep, if_pos (by omega)]
    refine ⟨iff_of_true rfl hcmp, fun _ => ⟨rfl, ?_, ?_, ?_, ?_, ?_⟩⟩ <;>
      (cases keepAlive <;> rfl)
  · rw [hstep, if_neg (by omega)]
    constructor
    · exact iff_of_false (serveBySize_statusCode_ne_304 env req fp N (truncSec M)
        keepAlive remaining) hcmp
    · intro h
      exact absurd h hcmp

theorem c7_not_modified_witness :
    (resolveStaticPath (str "public") (str "/static/a.txt")
        = some (str "public/static/a.txt") ∧
      envSmall.statFn (str "public/static/a.txt") = .found ⟨false, 5000000001, 5⟩ ∧
      (5000000001 : Nat) ≠ 0 ∧
      envSmall.parseTimeFn (str "IMS") = some 5000000002 ∧
      truncSec 5000000001 ≤ truncSec 5000000002) ∧
      (serveFileStream envSmall (str "public")
          ⟨str "GET", str "/static/a.txt", str "HTTP/1.1",
            [(str "If-Modified-Since", str "IMS")], []⟩ true 99).statusCode = 304 := by
  refine ⟨⟨by decide, by decide, by decide, by decide, by decide⟩, ?_⟩
  exact (c7_not_modified envSmall (str "public")
    ⟨str "GET", str "/static/a.txt", str "HTTP/1.1",
      [(str "If-Modified-Since", str "IMS")], []⟩
    (str "public/static/a.txt") 5000000001 5 5000000002 (str "IMS") true 99
    (by decide) (by decide) (by decide) (by decide) (by decide) (by decide)).1.mpr
    (by decide)

/-! ## C6: Range request correctness on the large-file branch -/

theorem splitOnChar_ne_nil (sep : Char) (s : Str) : splitOnChar sep s ≠ [] := by
  cases s with
  | nil => simp [splitOnChar]
  | cons c rest =>
    rw [splitOnChar]
    split
    · simp
    · split <;> simp

theorem splitOnChar_append (sep : Char) (a b : Str) :
    splitOnChar sep (a ++ sep :: b) = splitOnChar sep a ++ splitOnChar sep b := by
  induction a with
  | nil =>
    simp only [List.nil_append]
    rw [splitOnChar]
    cases h : splitOnChar sep b with
    | nil => exact absurd h (splitOnChar_ne_nil sep b)
    | cons x t => simp [splitOnChar, h]
  | cons c cs ih =>
    rw [List.cons_append, splitOnChar, ih, splitOnChar]
    cases h : splitOnChar sep cs with
    | nil => exact absurd h (splitOnChar_ne_nil sep cs)
    | cons x t =>
      by_cases hc : c = sep <;> simp [hc]

theorem splitOnChar_of_not_mem (sep : Char) (s : Str) (h : sep ∉ s) :
    splitOnChar sep s = [s] := by
  induction s with
  | nil => rfl
  | cons c cs ih =>
    have hc : ¬ c = sep := fun e => h (e ▸ List.mem_cons_self ..)
    have hcs : sep ∉ cs := fun m => h (List.mem_cons_of_mem _ m)
    rw [splitOnChar, ih hcs]
    simp [hc]

theorem goParseInt_nil : goParseInt [] = none := rfl

theorem parseRangeHeader_eval (sStr eStr : Str) (S E : Int) (N : Nat)
    (hs : goParseInt sStr = some S) (he : goParseInt eStr = some E)
    (h1 : '-' ∉ sStr) (h2 : '-' ∉ eStr) :
    parseRangeHeader (str "bytes=" ++ (sStr ++ '-' :: eStr)) N
      = if S < 0 ∨ E ≥ (N : Int) ∨ S > E then none else some (S, E) := by
  have hene : eStr ≠ [] := by
    rintro rfl
    rw [goParseInt_nil] at he
    exact absurd he (by simp)
  rw [parseRangeHeader,
    if_neg (not_not_intro (List.isPrefixOf_iff_prefix.mpr (List.prefix_append _ _)))]
  rw [show (6 : Nat) = (str "bytes=").length from rfl, List.drop_left,
    splitOnChar_append, splitOnChar_of_not_mem '-' sStr h1,
    splitOnChar_of_not_mem '-' eStr h2]
  simp only [List.cons_append, List.nil_append]
  rw [hs]
  rw [if_neg hene, he]

theorem parseRangeHeader_eval_suffix (sStr : Str) (S : Int) (N : Nat)
    (hs : goParseInt sStr = some S) (h1 : '-' ∉ sStr) :
    parseRangeHeader (str "bytes=" ++ (sStr ++ ['-'])) N
      = if S < 0 ∨ (N : Int) - 1 ≥ (N : Int) ∨ S > (N : Int) - 1 then none
        else some (S, (N : Int) - 1) := by
  rw [parseRangeHeader,
    if_neg (not_not_intro (List.isPrefixOf_iff_prefix.mpr (List.prefix_append _ _)))]
  rw [show (6 : Nat) = (str "bytes=").length from rfl, List.drop_left]
  rw [show (sStr ++ ['-'] : Str) = sStr ++ '-' :: [] from rfl,
    splitOnChar_append, splitOnChar_of_not_mem '-' sStr h1]
  simp only [splitOnChar, List.cons_append, List.nil_append]
  rw [hs]
  simp

theorem c6_reduce (env : Env) (root : Str) (req : Request) (fp : Str)
    (M N : Nat) (content rh : Str) (keepAlive : Bool) (remaining : Nat)
    (hres : resolveStaticPath root req.path = some fp)
    (hstat : env.statFn fp = .found ⟨false, M, N⟩)
    (hbig : N > MaxInMemorySize)
    (hims0 : lookupD req.headers (str "If-Modified-Since") = [])
    (hread : env.readFn fp = some content)
    (hrange : lookupD req.headers (str "Range") = rh)
    (hrne : rh ≠ []) :
    serveFileStream env root req keepAlive remaining
      = match parseRangeHeader rh N with
        | none => send416 env N req.version keepAlive remaining
        | some se =>
          sendRangeFile env content se.1 se.2 fp N M req.version keepAlive remaining := by
  simp only [serveFileStream, hres, hstat, hims0]
  rw [if_neg (show ¬(false = true) from by decide)]
  simp only [ne_eq, not_true_eq_false, and_false, if_false]
  simp only [serveBySize]
  rw [if_neg (by omega : ¬ (N ≤ MaxInMemorySize))]
  simp only [serveLargeFile, hread, hrange]
  rw [if_neg hrne]
  cases hpr : parseRangeHeader rh N with
  | none => rfl
  | some se => cases se; rfl

theorem intToStr_natCast (n : Nat) : intToStr (n : Int) = natToStr n := by
  rw [intToStr, if_neg (by omega)]
  rw [Int.toNat_natCast]

theorem sendRangeFile_facts (env : Env) (content : Str) (s e : Int) (fp : Str)
    (N M : Nat) (ver : Str) (ka : Bool) (rem : Nat) :
    (sendRangeFile env content s e fp N M ver ka rem).statusCode = 206 ∧
    lookup? (sendRangeFile env content s e fp N M ver ka rem).headers (str "Content-Range")
      = some (str "bytes " ++ intToStr s ++ str "-" ++ intToStr e ++ str "/" ++ natToStr N) ∧
    lookup? (sendRangeFile env content s e fp N M ver ka rem).headers (str "Content-Length")
      = some (intToStr (e - s + 1)) ∧
    (sendRangeFile env content s e fp N M ver ka rem).body
      = (content.drop s.toNat).take (e - s + 1).toNat := by
  refine ⟨rfl, ?_, ?_, rfl⟩ <;> (cases ka <;> rfl)

theorem send416_facts (env : Env) (N : Nat) (ver : Str) (ka : Bool) (rem : Nat) :
    (send416 env N ver ka rem).statusCode = 416 ∧
    lookup? (send416 env N ver ka rem).headers (str "Content-Range")
      = some (str "bytes */" ++ natToStr N) ∧
    (send416 env N ver ka rem).body = [] := by
  refine ⟨rfl, ?_, rfl⟩
  cases ka <;> rfl

/-- Claim C6: for a `Range` header `bytes=S-E` (or `bytes=S-`, the end
defaulting to `N - 1`) against a file of size `N` larger than 1 MiB, with
`0 ≤ S ≤ E < N`, the response is 206 with
`Content-Range: bytes S-E/N`, `Content-Length = E - S + 1` and a body
equal to the file's bytes `[S..E]` inclusive; a `Range` header the parser
rejects — in particular `bytes=S-E` with `E ≥ N` or `S > E` — yields 416
with `Content-Range: bytes */N` and no body. -/
theorem c6_range_correctness (env : Env) (root : Str) (req : Request) (fp : Str)
    (M N : Nat) (content rh : Str) (keepAlive : Bool) (remaining : Nat)
    (hres : resolveStaticPath root req.path = some fp)
    (hstat : env.statFn fp = .found ⟨false, M, N⟩)
    (hbig : N > MaxInMemorySize)
    (hims0 : lookupD req.headers (str "If-Modified-Since") = [])
    (hread : env.readFn fp = some content)
    (hclen : content.length = N)
    (hrange : lookupD req.headers (str "Range") = rh)
    (hrne : rh ≠ []) :
    (∀ (sStr eStr : Str) (S E : Nat),
      rh = str "bytes=" ++ (sStr ++ '-' :: eStr) →
      goParseInt sStr = some (S : Int) → goParseInt eStr = some (E : Int) →
      '-' ∉ sStr → '-' ∉ eStr → S ≤ E → E < N →
      (serveFileStream env root req keepAlive remaining).statusCode = 206 ∧
      lookup? (serveFileStream env root req keepAlive remaining).headers
          (str "Content-Range")
        = some (str "bytes " ++ natToStr S ++ str "-" ++ natToStr E
            ++ str "/" ++ natToStr N) ∧
      lookup? (serveFileStream env root req keepAlive remaining).headers
          (str "Content-Length") = some (natToStr (E - S + 1)) ∧
      (serveFileStream env root req keepAlive remaining).body
        = (content.drop S).take (E - S + 1) ∧
      (serveFileStream env root req keepAlive remaining).body.length = E - S + 1) ∧
    (∀ (sStr : Str) (S : Nat),
      rh = str "bytes=" ++ (sStr ++ ['-']) →
      goParseInt sStr = some (S : Int) → '-' ∉ sStr → S ≤ N - 1 →
      (serveFileStream env root req keepAlive remaining).statusCode = 206 ∧
      lookup? (serveFileStream env root req keepAlive remaining).headers
          (str "Content-Range")
        = some (str "bytes " ++ natToStr S ++ str "-" ++ natToStr (N - 1)
            ++ str "/" ++ natToStr N) ∧
      lookup? (serveFileStream env root req keepAlive remaining).headers
          (str "Content-Length") = some (natToStr (N - 1 - S + 1)) ∧
      (serveFileStream env root req keepAlive remaining).body
        = (content.drop S).take (N - 1 - S + 1)) ∧
    (parseRangeHeader rh N = none →
      (serveFileStream env root req keepAlive remaining).statusCode = 416 ∧
      lookup? (serveFileStream env root req keepAlive remaining).headers
          (str "Content-Range") = some (str "bytes */" ++ natToStr N) ∧
      (serveFileStream env root req keepAlive remaining).body = []) ∧
    (∀ (sStr eStr : Str) (S E : Nat),
      rh = str "bytes=" ++ (sStr ++ '-' :: eStr) →
      goParseInt sStr = some (S : Int) → goParseInt eStr = some (E : Int) →
      '-' ∉ sStr → '-' ∉ eStr → (N ≤ E ∨ E < S) →
      parseRangeHeader rh N = none) := by
  have hN : N > 1048576 := by simpa [MaxInMemorySize] using hbig
  have hred := c6_reduce env root req fp M N content rh keepAlive remaining
    hres hstat hbig hims0 hread hrange hrne
  refine ⟨?_, ?_, ?_, ?_⟩
  · intro sStr eStr S E hform hs he hns hne hSE hEN
    have hpr : parseRangeHeader rh N = some ((S : Int), (E : Int)) := by
      rw [hform, parseRangeHeader_eval sStr eStr _ _ N hs he hns hne, if_neg (by omega)]
    have hsrv : serveFileStream env root req keepAlive remaining
        = sendRangeFile env content (S : Int) (E : Int) fp N M req.version
            keepAlive remaining := by
      rw [hred, hpr]
    obtain ⟨f1, f2, f3, f4⟩ := sendRangeFile_facts env content (S : Int) (E : Int)
      fp N M req.version keepAlive remaining
    have hc1 : ((E : Int) - (S : Int) + 1) = ((E - S + 1 : Nat) : Int) := by omega
    refine ⟨by rw [hsrv]; exact f1, ?_, ?_, ?_, ?_⟩
    · rw [hsrv, f2, intToStr_natCast, intToStr_natCast]
    · rw [hsrv, f3, hc1, intToStr_natCast]
    · rw [hsrv, f4, hc1, Int.toNat_natCast, Int.toNat_natCast]
    · rw [hsrv, f4, hc1, Int.toNat_natCast, Int.toNat_natCast]
      simp [List.length_take, List.length_drop, hclen]
      omega
  · intro sStr S hform hs hns hSN
    have hpr : parseRangeHeader rh N = some ((S : Int), (N : Int) - 1) := by
      rw [hform, parseRangeHeader_eval_suffix sStr _ N hs hns, if_neg (by omega)]
    have hc2 : ((N : Int) - 1) = ((N - 1 : Nat) : Int) := by omega
    rw [hc2] at hpr
    have hsrv : serveFileStream env root req keepAlive remaining
        = sendRangeFile env content (S : Int) ((N - 1 : Nat) : Int) fp N M req.version
            keepAlive remaining := by
      rw [hred, hpr]
    obtain ⟨f1, f2, f3, f4⟩ := sendRangeFile_facts env content (S : Int)
      ((N - 1 : Nat) : Int) fp N M req.version keepAlive remaining
    have hc1 : (((N - 1 : Nat) : Int) - (S : Int) + 1) = ((N - 1 - S + 1 : Nat) : Int) := by
      omega
    refine ⟨by rw [hsrv]; exact f1, ?_, ?_, ?_⟩
    · rw [hsrv, f2, intToStr_natCast, intToStr_natCast]
    · rw [hsrv, f3, hc1, intToStr_natCast]
    · rw [hsrv, f4, hc1, Int.toNat_natCast, Int.toNat_natCast]
  · intro hpr
    have hsrv : serveFileStream env root req keepAlive remaining
        = send416 env N req.version keepAlive remaining := by
      rw [hred, hpr]
    obtain ⟨f1, f2, f3⟩ := send416_facts env N req.version keepAlive remaining
    exact ⟨by rw [hsrv]; exact f1, by rw [hsrv]; exact f2, by rw [hsrv]; exact f3⟩
  · intro sStr eStr S E hform hs he hns hne hbad
    rw [hform, parseRangeHeader_eval sStr eStr _ _ N hs he hns hne, if_pos (by omega)]

theorem c6_range_correctness_witness :
    (resolveStaticPath (str "public") (str "/static/big.bin")
        = some (str "public/static/big.bin") ∧
      envBig.statFn (str "public/static/big.bin") = .found ⟨false, 7, 2000000⟩ ∧
      2000000 > MaxInMemorySize ∧
      envBig.readFn (str "public/static/big.bin") = some bigContent ∧
      bigContent.length = 2000000 ∧
      goParseInt (str "1000") = some (1000 : Int) ∧
      goParseInt (str "1999") = some (1999 : Int)) ∧
      ((serveFileStream envBig (str "public")
          ⟨str "GET", str "/static/big.bin", str "HTTP/1.1",
            [(str "Range", str "bytes=1000-1999")], []⟩ true 99).statusCode = 206 ∧
        lookup? (serveFileStream envBig (str "public")
            ⟨str "GET", str "/static/big.bin", str "HTTP/1.1",
              [(str "Range", str "bytes=1000-1999")], []⟩ true 99).headers
            (str "Content-Range")
          = some (str "bytes " ++ natToStr 1000 ++ str "-" ++ natToStr 1999
              ++ str "/" ++ natToStr 2000000) ∧
        lookup? (serveFileStream envBig (str "public")
            ⟨str "GET", str "/static/big.bin", str "HTTP/1.1",
              [(str "Range", str "bytes=1000-1999")], []⟩ true 99).headers
            (str "Content-Length") = some (natToStr (1999 - 1000 + 1)) ∧
        (serveFileStream envBig (str "public")
            ⟨str "GET", str "/static/big.bin", str "HTTP/1.1",
              [(str "Range", str "bytes=1000-1999")], []⟩ true 99).body
          = (bigContent.drop 1000).take (1999 - 1000 + 1) ∧
        (serveFileStream envBig (str "public")
            ⟨str "GET", str "/static/big.bin", str "HTTP/1.1",
              [(str "Range", str "bytes=1000-1999")], []⟩ true 99).body.length
          = 1999 - 1000 + 1) :=
  ⟨⟨by decide, by decide, by decide, rfl, List.length_replicate 2000000 'a',
      by decide, by decide⟩,
    (c6_range_correctness envBig (str "public")
      ⟨str "GET", str "/static/big.bin", str "HTTP/1.1",
        [(str "Range", str "bytes=1000-1999")], []⟩
      (str "public/static/big.bin") 7 2000000 bigContent (str "bytes=1000-1999") true 99
      (by decide) (by decide) (by decide) (by decide) rfl
      (List.length_replicate 2000000 'a') (by decide) (by decide)).1
      (str "1000") (str "1999") 1000 1999 (by decide) (by decide) (by decide)
      (by decide) (by decide) (by decide) (by decide)⟩


/-! ## Claim C2: traversal confinement -/

theorem splitOnChar_cons_eq (sep c : Char) (cs : Str) (x : Str) (t : List Str)
    (h : splitOnChar sep cs = x :: t) :
    splitOnChar sep (c :: cs) = if c = sep then [] :: x :: t else (c :: x) :: t := by
  rw [splitOnChar, h]

theorem splitOnChar_sep_not_mem (sep : Char) :
    ∀ (s : Str), ∀ e ∈ splitOnChar sep s, sep ∉ e := by
  intro s
  induction s with
  | nil =>
    intro e he
    simp [splitOnChar] at he
    simp [he]
  | cons c cs ih =>
    intro e he
    cases h : splitOnChar sep cs with
    | nil => exact absurd h (splitOnChar_ne_nil sep cs)
    | cons x t =>
      rw [splitOnChar_cons_eq sep c cs x t h] at he
      by_cases hc : c = sep
      · rw [if_pos hc] at he
        rcases List.mem_cons.mp he with he | he
        · simp [he]
        · exact ih e (h ▸ he)
      · rw [if_neg hc] at he
        rcases List.mem_cons.mp he with he | he
        · subst he
          intro hmem
          rcases List.mem_cons.mp hmem with h1 | h1
          · exact hc h1.symm
          · exact ih x (h ▸ List.mem_cons_self ..) h1
        · exact ih e (h ▸ List.mem_cons_of_mem _ he)

theorem splitOnChar_head (sep c : Char) (rest : Str) (hc : c ≠ sep) :
    ∃ h' t', splitOnChar sep (c :: rest) = (c :: h') :: t' := by
  cases h : splitOnChar sep rest with
  | nil => exact absurd h (splitOnChar_ne_nil sep rest)
  | cons x t => exact ⟨x, t, by rw [splitOnChar_cons_eq sep c rest x t h, if_neg hc]⟩

theorem cleanPush_plain (r : Bool) (st : List Str) (e : Str) (h : plainElem e) :
    cleanPush r st e = e :: st := by
  obtain ⟨h1, h2, h3, -⟩ := h
  rw [cleanPush.eq_def, if_neg (by simp [h1, h2]), if_neg h3]

theorem foldl_cleanPush_plain (r : Bool) :
    ∀ (comps : List Str) (st : List Str), (∀ c ∈ comps, plainElem c) →
      List.foldl (cleanPush r) st comps = comps.reverse ++ st := by
  intro comps
  induction comps with
  | nil => intro st h; simp
  | cons c cs ih =>
    intro st h
    rw [List.foldl_cons, cleanPush_plain r st c (h c (List.mem_cons_self ..)),
      ih (c :: st) (fun x hx => h x (List.mem_cons_of_mem _ hx))]
    simp

theorem cleanPush_inv (st : List Str) (x : Str)
    (hst : ∀ e ∈ st, plainElem e) (hx : '/' ∉ x) :
    ∀ y ∈ cleanPush true st x, plainElem y := by
  by_cases h1 : x = [] ∨ x = ['.']
  · rw [show cleanPush true st x = st from by rw [cleanPush.eq_def, if_pos h1]]
    exact hst
  by_cases h2 : x = ['.', '.']
  · subst h2
    cases st with
    | nil =>
      intro y hy
      exact absurd hy (List.not_mem_nil y)
    | cons top rest2 =>
      by_cases htop : top = ['.', '.']
      · exact absurd htop (hst top (List.mem_cons_self ..)).2.2.1
      · have e1 : cleanPush true (top :: rest2) ['.', '.']
            = if top = ['.', '.'] then ['.', '.'] :: top :: rest2 else rest2 := rfl
        rw [e1, if_neg htop]
        exact fun y hy => hst y (List.mem_cons_of_mem _ hy)
  · have hplain : plainElem x :=
      ⟨fun hh => h1 (Or.inl hh), fun hh => h1 (Or.inr hh), h2, hx⟩
    rw [cleanPush_plain true st x hplain]
    intro y hy
    rcases List.mem_cons.mp hy with hh | hh
    · subst hh
      exact hplain
    · exact hst y hh

theorem cleanStack_inv :
    ∀ (elems : List Str) (st : List Str),
      (∀ e ∈ st, plainElem e) → (∀ x ∈ elems, '/' ∉ x) →
      ∀ e ∈ List.foldl (cleanPush true) st elems, plainElem e := by
  intro elems
  induction elems with
  | nil => intro st hst _ e he; exact hst e he
  | cons x xs ih =>
    intro st hst hx e he
    rw [List.foldl_cons] at he
    exact ih (cleanPush true st x)
      (cleanPush_inv st x hst (hx x (List.mem_cons_self ..)))
      (fun y hy => hx y (List.mem_cons_of_mem _ hy)) e he

theorem splitOnChar_joinSlash :
    ∀ (comps : List Str), comps ≠ [] → (∀ c ∈ comps, '/' ∉ c) →
      splitOnChar '/' (joinSlash comps) = comps := by
  intro comps
  induction comps with
  | nil => intro h; exact absurd rfl h
  | cons c cs ih =>
    intro _ h
    cases cs with
    | nil =>
      rw [joinSlash]
      exact splitOnChar_of_not_mem '/' c (h c (List.mem_cons_self ..))
    | cons d ds =>
      rw [joinSlash, splitOnChar_append]
      rw [splitOnChar_of_not_mem '/' c (h c (List.mem_cons_self ..))]
      rw [ih (by simp) (fun x hx => h x (List.mem_cons_of_mem _ hx))]
      rfl

theorem splitOnChar_cons_sep (sep : Char) (rest : Str) :
    splitOnChar sep (sep :: rest) = [] :: splitOnChar sep rest := by
  cases hsp : splitOnChar sep rest with
  | nil => exact absurd hsp (splitOnChar_ne_nil sep rest)
  | cons x t => rw [splitOnChar_cons_eq sep sep rest x t hsp, if_pos rfl]


theorem joinSlash_head (ch : Char) (ct : Str) (cs0 : List Str) :
    (joinSlash ((ch :: ct) :: cs0)).head? = some ch := by
  cases cs0 <;> rfl

theorem pathElems_rebuild (rb : Bool) (comps : List Str)
    (h : ∀ c ∈ comps, plainElem c) :
    pathElems (rebuildPath rb comps) = comps := by
  cases rb with
  | true =>
    rw [rebuildPath, if_pos rfl]
    cases comps with
    | nil => rfl
    | cons c0 cs0 =>
      rw [pathElems]
      rw [show (decide ((('/' :: joinSlash (c0 :: cs0)).head?) = some '/')) = true from rfl]
      rw [splitOnChar_cons_sep,
        splitOnChar_joinSlash (c0 :: cs0) (by simp) (fun x hx => (h x hx).2.2.2)]
      rw [cleanElems, List.foldl_cons,
        show cleanPush true [] ([] : Str) = [] from rfl,
        foldl_cleanPush_plain true (c0 :: cs0) [] h]
      simp
  | false =>
    cases comps with
    | nil => rfl
    | cons c0 cs0 =>
      rw [rebuildPath, if_neg (by decide), if_neg (by simp)]
      cases hc0 : c0 with
      | nil => exact absurd hc0 (h c0 (List.mem_cons_self ..)).1
      | cons ch ct =>
        subst hc0
        have hch : ch ≠ '/' := by
          intro hh
          exact (h (ch :: ct) (List.mem_cons_self ..)).2.2.2 (hh ▸ List.mem_cons_self ..)
        rw [pathElems]
        rw [show (decide (((joinSlash ((ch :: ct) :: cs0)).head?) = some '/')) = false from
          decide_eq_false (by rw [joinSlash_head]; simp [hch])]
        rw [splitOnChar_joinSlash ((ch :: ct) :: cs0) (by simp) (fun x hx => (h x hx).2.2.2)]
        rw [cleanElems, foldl_cleanPush_plain false ((ch :: ct) :: cs0) [] h]
        simp

theorem cleanPush_nil_elem (r : Bool) (st : List Str) : cleanPush r st [] = st := by
  rw [cleanPush.eq_def, if_pos (Or.inl rfl)]

theorem cleanElems_append_plain (r : Bool) (X : List Str) (idx : Str)
    (hidx : plainElem idx) :
    cleanElems r (X ++ [idx]) = cleanElems r X ++ [idx] := by
  rw [cleanElems, List.foldl_append, List.foldl_cons, List.foldl_nil,
    cleanPush_plain r _ idx hidx, List.reverse_cons, cleanElems]

theorem cleanElems_true_plain (elems : List Str) (h : ∀ x ∈ elems, '/' ∉ x) :
    ∀ e ∈ cleanElems true elems, plainElem e := by
  intro e he
  rw [cleanElems] at he
  exact cleanStack_inv elems [] (by simp) h e (List.mem_reverse.mp he)

theorem goJoin_plain (c : Char) (s' idx : Str) (hidx : plainElem idx) :
    goJoin (c :: s') idx
      = rebuildPath (decide (c = '/'))
          (cleanElems (decide (c = '/')) (splitOnChar '/' (c :: s')) ++ [idx]) := by
  rw [goJoin, if_neg (by simp), if_neg hidx.1]
  rw [show ((c :: s') ++ '/' :: idx : Str) = c :: (s' ++ '/' :: idx) from rfl]
  simp only [goClean]
  rw [show (c :: (s' ++ '/' :: idx) : Str) = (c :: s') ++ '/' :: idx from rfl,
    splitOnChar_append, splitOnChar_of_not_mem '/' idx hidx.2.2.2,
    cleanElems_append_plain _ _ idx hidx]

theorem rebuildPath_ne_nil (rb : Bool) (comps : List Str)
    (h : ∀ c ∈ comps, plainElem c) : rebuildPath rb comps ≠ [] := by
  cases rb with
  | true => rw [rebuildPath, if_pos rfl]; simp
  | false =>
    cases comps with
    | nil => rw [rebuildPath]; simp
    | cons c0 cs =>
      rw [rebuildPath, if_neg (by decide), if_neg (by simp)]
      cases hc0 : c0 with
      | nil => exact absurd hc0 (h c0 (List.mem_cons_self ..)).1
      | cons ch ct => cases cs <;> simp [joinSlash]

theorem pathElems_goJoin_plain (s idx : Str) (hs : s ≠ []) (hidx : plainElem idx)
    (hall : ∀ c ∈ pathElems s, plainElem c) :
    pathElems (goJoin s idx) = pathElems s ++ [idx] := by
  cases s with
  | nil => exact absurd rfl hs
  | cons c s' =>
    rw [goJoin_plain c s' idx hidx]
    have hb : (decide (c = '/')) = (decide (((c :: s').head?) = some '/')) :=
      decide_eq_decide.mpr (by simp)
    rw [hb]
    rw [show cleanElems (decide (((c :: s').head?) = some '/')) (splitOnChar '/' (c :: s'))
        = pathElems (c :: s') from rfl]
    refine pathElems_rebuild _ _ ?_
    intro x hx
    rcases List.mem_append.mp hx with h1 | h1
    · exact hall x h1
    · rw [List.mem_singleton.mp h1]
      exact hidx

instance (c : Str) : Decidable (plainElem c) := by
  unfold plainElem
  infer_instance

theorem cleanElems_append_comps (r : Bool) (A : List Str) (comps : List Str)
    (hcomps : ∀ e ∈ comps, plainElem e) :
    cleanElems r (A ++ [] :: splitOnChar '/' (joinSlash comps))
      = cleanElems r A ++ comps := by
  by_cases hc : comps = []
  · subst hc
    rw [show joinSlash ([] : List Str) = [] from rfl]
    rw [show splitOnChar '/' ([] : Str) = [[]] from rfl]
    rw [cleanElems, List.foldl_append, List.foldl_cons, List.foldl_cons, List.foldl_nil,
      cleanPush_nil_elem, cleanPush_nil_elem, ← cleanElems, List.append_nil]
  · rw [splitOnChar_joinSlash comps hc (fun x hx => (hcomps x hx).2.2.2)]
    rw [cleanElems, List.foldl_append, List.foldl_cons, cleanPush_nil_elem,
      foldl_cleanPush_plain r comps _ hcomps]
    rw [List.reverse_append, List.reverse_reverse, ← cleanElems]

theorem goJoin_rooted_eq (root : Str) (comps : List Str)
    (hroot : root ≠ [])
    (hcomps : ∀ e ∈ comps, plainElem e) :
    goJoin root (rebuildPath true comps)
      = rebuildPath (decide (root.head? = some '/')) (pathElems root ++ comps) := by
  cases root with
  | nil => exact absurd rfl hroot
  | cons r0 rt =>
    rw [rebuildPath, if_pos rfl]
    rw [goJoin, if_neg (by simp), if_neg (by simp)]
    rw [show ((r0 :: rt) ++ '/' :: '/' :: joinSlash comps : Str)
        = r0 :: (rt ++ '/' :: '/' :: joinSlash comps) from rfl]
    simp only [goClean]
    rw [show (r0 :: (rt ++ '/' :: '/' :: joinSlash comps) : Str)
        = (r0 :: rt) ++ '/' :: ('/' :: joinSlash comps) from rfl]
    rw [splitOnChar_append, splitOnChar_cons_sep]
    rw [cleanElems_append_comps _ _ _ hcomps]
    have hb : (decide (r0 = '/')) = (decide (((r0 :: rt : Str)).head? = some '/')) :=
      decide_eq_decide.mpr (by simp)
    rw [hb]
    rw [show cleanElems (decide (((r0 :: rt : Str)).head? = some '/'))
          (splitOnChar '/' (r0 :: rt)) = pathElems (r0 :: rt) from rfl]

/-- Claim C2: traversal confinement.  For every request whose path starts
with `/static/` (any `GET`/`HEAD` request routed to the file server), if the
path-safety prologue of `ServeFileStream` resolves a filesystem path `fp`
(query stripped, `filepath.Clean` applied, the `".."` refusal passed, the
result joined onto a well-formed root), then `fp` — the path the server
stats, opens and serves — lies inside the configured root: its cleaned
element list extends the root's element list and the added suffix contains
no `".."` component; the same holds for the `index.html` path the directory
branch derives from `fp` via `filepath.Join`. -/
theorem c2_confinement (root reqPath fp : Str)
    (hroot : root ≠ [])
    (hrplain : ∀ c ∈ pathElems root, plainElem c)
    (hpre : List.isPrefixOf (str "/static/") reqPath = true)
    (hres : resolveStaticPath root reqPath = some fp) :
    (∃ sfx, pathElems fp = pathElems root ++ sfx ∧ str ".." ∉ sfx) ∧
    (∃ sfx2, pathElems (goJoin fp (str "index.html")) = pathElems root ++ sfx2 ∧
      str ".." ∉ sfx2) := by
  obtain ⟨t, ht⟩ := List.isPrefixOf_iff_prefix.mp hpre
  have hreq : reqPath = '/' :: (str "static/" ++ t) := by rw [← ht]; rfl
  obtain ⟨h', t', hsp⟩ := splitOnChar_head '?' '/' (str "static/" ++ t) (by decide)
  simp only [resolveStaticPath] at hres
  rw [hreq, hsp, List.headD_cons] at hres
  split at hres
  · exact absurd hres (by simp)
  · injection hres with hfp
    subst hfp
    have hclean : goClean ('/' :: h')
        = rebuildPath true (cleanElems true (splitOnChar '/' ('/' :: h'))) := by
      simp only [goClean]
      rw [show (decide True) = true from rfl]
    have hcomps : ∀ e ∈ cleanElems true (splitOnChar '/' ('/' :: h')), plainElem e :=
      cleanElems_true_plain _ (splitOnChar_sep_not_mem '/' _)
    rw [hclean, goJoin_rooted_eq root _ hroot hcomps]
    have hall : ∀ c ∈ pathElems root ++ cleanElems true (splitOnChar '/' ('/' :: h')),
        plainElem c := by
      intro x hx
      rcases List.mem_append.mp hx with h1 | h1
      · exact hrplain x h1
      · exact hcomps x h1
    have hpe : pathElems (rebuildPath (decide (root.head? = some '/'))
          (pathElems root ++ cleanElems true (splitOnChar '/' ('/' :: h'))))
        = pathElems root ++ cleanElems true (splitOnChar '/' ('/' :: h')) :=
      pathElems_rebuild _ _ hall
    have hnodots : str ".." ∉ cleanElems true (splitOnChar '/' ('/' :: h')) := by
      intro hmem
      exact (hcomps _ hmem).2.2.1 rfl
    constructor
    · exact ⟨cleanElems true (splitOnChar '/' ('/' :: h')), hpe, hnodots⟩
    · refine ⟨cleanElems true (splitOnChar '/' ('/' :: h')) ++ [str "index.html"], ?_, ?_⟩
      · rw [pathElems_goJoin_plain _ _ (rebuildPath_ne_nil _ _ hall) (by decide)
          (by rw [hpe]; exact hall), hpe, List.append_assoc]
      · intro hmem
        rcases List.mem_append.mp hmem with h1 | h1
        · exact hnodots h1
        · exact absurd (List.mem_singleton.mp h1) (by decide)

theorem c2_confinement_witness :
    (str "./public" : Str) ≠ [] ∧
    (∀ c ∈ pathElems (str "./public"), plainElem c) ∧
    List.isPrefixOf (str "/static/") (str "/static/css/style.css") = true ∧
    resolveStaticPath (str "./public") (str "/static/css/style.css")
      = some (str "public/static/css/style.css") ∧
    ((∃ sfx, pathElems (str "public/static/css/style.css")
        = pathElems (str "./public") ++ sfx ∧ str ".." ∉ sfx) ∧
     (∃ sfx2, pathElems (goJoin (str "public/static/css/style.css") (str "index.html"))
        = pathElems (str "./public") ++ sfx2 ∧ str ".." ∉ sfx2)) :=
  ⟨by decide, by decide, by decide, by decide,
   c2_confinement (str "./public") (str "/static/css/style.css")
     (str "public/static/css/style.css") (by decide) (by decide) (by decide) (by decide)⟩

end GWS
